import Mathlib

/-!
Verification of the peer-to-peer chat program (crates `peer-common`, `peer-core`,
`peer-cli`) against its natural-language specification.

The Rust sources are shallowly embedded:
* bytes are `Nat` (values below 256 in well-formed data),
* byte strings (`Vec<u8>`, `[u8; N]`, `&[u8]`) are `List Nat`,
* machine integers are `Nat` with explicit `% 2 ^ w` where overflow matters,
* a Rust function that can panic returns `PanicOr α`,
* a Rust function returning `anyhow::Result` returns `Except String α`.

The symmetric cipher used by `peer-common/src/crypto.rs` is XChaCha20-Poly1305
from the `chacha20poly1305` crate; it is embedded here in full (ChaCha20 core,
HChaCha20, Poly1305, and the RFC 8439 AEAD construction with empty associated
data, which is exactly what `cipher.encrypt` / `cipher.decrypt` compute).
-/

/-- Result of running a Rust computation that may panic: either a panic with the
panic message, or a normal return value. -/
inductive PanicOr (α : Type) where
  | panics (msg : String)
  | ok (a : α)
deriving DecidableEq, Repr

/-! ## ChaCha20 core (the `chacha20` crate, 32-bit word arithmetic) -/

/-- Truncate to a 32-bit word. -/
def w32 (x : Nat) : Nat := x % 4294967296

/-- 32-bit wrapping addition. -/
def add32 (a b : Nat) : Nat := (a + b) % 4294967296

/-- 32-bit left rotation by `n` (for `n ≤ 32`) of a 32-bit word. -/
def rotl32 (x n : Nat) : Nat :=
  (w32 x * 2 ^ n % 4294967296) ||| (w32 x / 2 ^ (32 - n))

/-- The ChaCha quarter round on four words (RFC 8439 §2.1). -/
def quarterRound (a b c d : Nat) : Nat × Nat × Nat × Nat :=
  let a := add32 a b
  let d := rotl32 (d ^^^ a) 16
  let c := add32 c d
  let b := rotl32 (b ^^^ c) 12
  let a := add32 a b
  let d := rotl32 (d ^^^ a) 8
  let c := add32 c d
  let b := rotl32 (b ^^^ c) 7
  (a, b, c, d)

/-- Word `i` of a ChaCha state (a 16-element list of 32-bit words). -/
def gw (s : List Nat) (i : Nat) : Nat := s.getD i 0

/-- Apply the quarter round to state positions `i j k l`. -/
def qrAt (s : List Nat) (i j k l : Nat) : List Nat :=
  match quarterRound (gw s i) (gw s j) (gw s k) (gw s l) with
  | (a, b, c, d) => (((s.set i a).set j b).set k c).set l d

/-- One ChaCha double round: a column round followed by a diagonal round. -/
def doubleRound (s : List Nat) : List Nat :=
  let s := qrAt s 0 4 8 12
  let s := qrAt s 1 5 9 13
  let s := qrAt s 2 6 10 14
  let s := qrAt s 3 7 11 15
  let s := qrAt s 0 5 10 15
  let s := qrAt s 1 6 11 12
  let s := qrAt s 2 7 8 13
  qrAt s 3 4 9 14

/-- Iterate a function `n` times. -/
def iterN {α : Type} : Nat → (α → α) → α → α
  | 0, _, s => s
  | n + 1, f, s => iterN n f (f s)

/-- The 20 ChaCha rounds (10 double rounds). -/
def rounds20 (s : List Nat) : List Nat := iterN 10 doubleRound s

/-- Little-endian 32-bit words from a byte list (length a multiple of 4 in all
uses; a trailing short group is loaded little-endian as is). -/
def bytesToWordsLE : List Nat → List Nat
  | b0 :: b1 :: b2 :: b3 :: rest =>
    (b0 % 256 + 256 * (b1 % 256) + 65536 * (b2 % 256) + 16777216 * (b3 % 256))
      :: bytesToWordsLE rest
  | [] => []
  | [b0] => [b0 % 256]
  | [b0, b1] => [b0 % 256 + 256 * (b1 % 256)]
  | [b0, b1, b2] => [b0 % 256 + 256 * (b1 % 256) + 65536 * (b2 % 256)]

/-- Little-endian bytes of a list of 32-bit words. -/
def wordsToBytesLE : List Nat → List Nat
  | [] => []
  | w :: rest =>
    w % 256 :: w / 256 % 256 :: w / 65536 % 256 :: w / 16777216 % 256
      :: wordsToBytesLE rest

/-- The four ChaCha constant words. -/
def chachaConsts : List Nat := [1634760805, 857760878, 2036477234, 1797285236]

/-- Initial ChaCha20 state for a 32-byte key, a 32-bit block counter and a
12-byte nonce (RFC 8439 §2.3). -/
def chachaInit (key : List Nat) (counter : Nat) (nonce12 : List Nat) : List Nat :=
  chachaConsts ++ bytesToWordsLE (key.take 32) ++ [w32 counter]
    ++ bytesToWordsLE (nonce12.take 12)

/-- One 64-byte ChaCha20 keystream block. -/
def chachaBlock (key : List Nat) (counter : Nat) (nonce12 : List Nat) : List Nat :=
  let s0 := chachaInit key counter nonce12
  wordsToBytesLE (List.zipWith add32 (rounds20 s0) s0)

/-- `fuel` consecutive ChaCha20 keystream blocks starting at block `counter`. -/
def ksBlocks (key nonce12 : List Nat) (counter : Nat) : Nat → List Nat
  | 0 => []
  | f + 1 => chachaBlock key counter nonce12 ++ ksBlocks key nonce12 (counter + 1) f

/-- The first `n` ChaCha20 keystream bytes starting at block `counter`. -/
def ksBytes (key nonce12 : List Nat) (counter n : Nat) : List Nat :=
  (ksBlocks key nonce12 counter ((n + 63) / 64)).take n

/-- XOR of two byte lists (pointwise, truncated to the shorter). -/
def xorBytes (a b : List Nat) : List Nat := List.zipWith (· ^^^ ·) a b

/-- HChaCha20: derives a 32-byte subkey from a 32-byte key and a 16-byte nonce
prefix (draft-irtf-cfrg-xchacha §2.2): 20 rounds without the final state
addition; output is words 0–3 and 12–15. -/
def hchacha20 (key nonce16 : List Nat) : List Nat :=
  let s := rounds20 (chachaConsts ++ bytesToWordsLE (key.take 32)
    ++ bytesToWordsLE (nonce16.take 16))
  wordsToBytesLE (s.take 4 ++ (s.drop 12).take 4)

/-! ## Poly1305 (RFC 8439 §2.5) -/

/-- The Poly1305 prime `2 ^ 130 - 5`. -/
def P1305 : Nat := 1361129467683753853853498429727072845819

/-- Clamping of the Poly1305 `r` value. -/
def clampR (r : Nat) : Nat := r &&& 21267647620597763993911028882763415551

/-- Little-endian integer value of a byte list. -/
def leNum (bs : List Nat) : Nat := bs.foldr (fun b acc => b % 256 + 256 * acc) 0

/-- The sequence of Poly1305 message values: each 16-byte chunk (the last one
possibly shorter) read little-endian with a high bit appended. -/
def polyChunks : List Nat → List Nat
  | [] => []
  | b0 :: b1 :: b2 :: b3 :: b4 :: b5 :: b6 :: b7 :: b8 :: b9 :: b10 :: b11
      :: b12 :: b13 :: b14 :: b15 :: rest =>
    (leNum [b0, b1, b2, b3, b4, b5, b6, b7, b8, b9, b10, b11, b12, b13, b14, b15]
      + 340282366920938463463374607431768211456) :: polyChunks rest
  | l => [leNum l + 2 ^ (8 * l.length)]

/-- Little-endian bytes of a value, `n` bytes wide. -/
def leBytes : Nat → Nat → List Nat
  | 0, _ => []
  | n + 1, v => v % 256 :: leBytes n (v / 256)

/-- The Poly1305 tag (16 bytes) for a message under a 32-byte one-time key. -/
def polyTag (otk : List Nat) (msg : List Nat) : List Nat :=
  let r := clampR (leNum (otk.take 16))
  let s := leNum ((otk.drop 16).take 16)
  let acc := (polyChunks msg).foldl (fun acc n => (acc + n) * r % P1305) 0
  leBytes 16 ((acc + s) % 340282366920938463463374607431768211456)

/-! ## The XChaCha20-Poly1305 AEAD (RFC 8439 construction, empty associated
data, as computed by `cipher.encrypt` / `cipher.decrypt` in the
`chacha20poly1305` crate for the calls made by `peer-common/src/crypto.rs`) -/

/-- Zero padding of a byte list to a multiple of 16 bytes. -/
def pad16 (l : List Nat) : List Nat := List.replicate ((16 - l.length % 16) % 16) 0

/-- The Poly1305 input authenticated by the AEAD: ciphertext (associated data is
empty), padding, and the two little-endian 64-bit lengths. -/
def macData (ct : List Nat) : List Nat :=
  ct ++ pad16 ct ++ leBytes 8 0 ++ leBytes 8 ct.length

/-- The XChaCha20 subkey and 12-byte nonce derived from a 24-byte nonce. -/
def xsubkey (key nonce24 : List Nat) : List Nat := hchacha20 key (nonce24.take 16)

/-- The 12-byte ChaCha20 nonce used by XChaCha20: four zero bytes followed by
the last 8 bytes of the 24-byte nonce. -/
def xnonce12 (nonce24 : List Nat) : List Nat := [0, 0, 0, 0] ++ (nonce24.drop 16).take 8

/-- The Poly1305 one-time key: the first 32 bytes of ChaCha20 block 0. -/
def polyOtk (key nonce24 : List Nat) : List Nat :=
  (chachaBlock (xsubkey key nonce24) 0 (xnonce12 nonce24)).take 32

/-- AEAD encryption: ciphertext body (keystream XOR, counter starting at 1)
followed by the 16-byte Poly1305 tag. -/
def aeadEncrypt (key nonce24 pt : List Nat) : List Nat :=
  let sub := xsubkey key nonce24
  let n12 := xnonce12 nonce24
  let ct := xorBytes pt (ksBytes sub n12 1 pt.length)
  ct ++ polyTag (polyOtk key nonce24) (macData ct)

/-- Whether the trailing 16-byte tag of `ct` verifies (`true` also requires
`ct` to be at least 16 bytes long, as in the crate). -/
def tagMatches (key nonce24 ct : List Nat) : Bool :=
  decide (16 ≤ ct.length) &&
    decide (polyTag (polyOtk key nonce24) (macData (ct.take (ct.length - 16)))
      = ct.drop (ct.length - 16))

/-- AEAD decryption: `none` exactly when the input is too short or the tag does
not verify (the crate returns `Err(aead::Error)` in those cases). -/
def aeadDecrypt (key nonce24 ct : List Nat) : Option (List Nat) :=
  if tagMatches key nonce24 ct then
    let body := ct.take (ct.length - 16)
    some (xorBytes body (ksBytes (xsubkey key nonce24) (xnonce12 nonce24) 1 body.length))
  else none

/-! ## `peer-common/src/crypto.rs`: `encrypt_message` / `decrypt_message` -/

/-- `encrypt_message` from `crypto.rs`. The Rust function draws the 24-byte
nonce from `rand::thread_rng`; the randomness is an explicit `nonce_bytes`
argument here. `cipher.encrypt` cannot fail on these inputs (its only failure
is a plaintext-length overflow that `Vec` cannot produce), so the trailing
`.expect("encryption failure!")` never fires and the embedding is total. -/
def encrypt_message (key plaintext nonce_bytes : List Nat) : List Nat × List Nat :=
  (aeadEncrypt key nonce_bytes plaintext, nonce_bytes)

/-- `decrypt_message` from `crypto.rs`: `cipher.decrypt` followed by
`.expect("decryption failure!")`, which panics with that message whenever the
tag does not verify (or the ciphertext is shorter than the 16-byte tag). -/
def decrypt_message (key ciphertext nonce_bytes : List Nat) : PanicOr (List Nat) :=
  match aeadDecrypt key nonce_bytes ciphertext with
  | some pt => .ok pt
  | none => .panics "decryption failure!"

/-! ## `peer-common/src/lib.rs`: `CipherType` and `Session` -/

/-- `CipherType` from `lib.rs`. -/
inductive CipherType where
  | AES256GCM
  | XChaCha20Poly1305
deriving DecidableEq, Repr

/-- `Session` from `lib.rs`: a 32-byte session key and the selected cipher. -/
structure Session where
  key : List Nat
  cipher : CipherType
deriving DecidableEq, Repr

/-- `Session::new` from `lib.rs`: the cipher is always `XChaCha20Poly1305`. -/
def Session.new (key : List Nat) : Session :=
  { key := key, cipher := CipherType.XChaCha20Poly1305 }

/-- `Session::encrypt` from `lib.rs`. The `AES256GCM` arm is
`panic!("AES256GCM not yet implemented")`. The nonce drawn inside
`encrypt_message` is an explicit argument, as above. -/
def Session.encrypt (s : Session) (plaintext nonce_bytes : List Nat) :
    PanicOr (List Nat × List Nat) :=
  match s.cipher with
  | CipherType.AES256GCM => .panics "AES256GCM not yet implemented"
  | CipherType.XChaCha20Poly1305 => .ok (encrypt_message s.key plaintext nonce_bytes)

/-- `Session::decrypt` from `lib.rs`. The `AES256GCM` arm panics as above. The
`XChaCha20Poly1305` arm evaluates `&nonce[..24]`, which panics when the nonce
slice is shorter than 24 bytes; otherwise `copy_from_slice` copies exactly the
first 24 bytes (any further bytes are ignored) and `decrypt_message` runs. -/
def Session.decrypt (s : Session) (ciphertext nonce : List Nat) : PanicOr (List Nat) :=
  match s.cipher with
  | CipherType.AES256GCM => .panics "AES256GCM not yet implemented"
  | CipherType.XChaCha20Poly1305 =>
    if nonce.length < 24 then
      .panics "range end index 24 out of range"
    else
      decrypt_message s.key ciphertext (nonce.take 24)

/-! ## Length and involution lemmas for the cipher -/

theorem bytesToWordsLE_length (bs : List Nat) :
    (bytesToWordsLE bs).length = (bs.length + 3) / 4 := by
  induction bs using bytesToWordsLE.induct with
  | case1 b0 b1 b2 b3 rest ih => simp [bytesToWordsLE, ih]; omega
  | case2 => simp [bytesToWordsLE]
  | case3 b0 => simp [bytesToWordsLE]
  | case4 b0 b1 => simp [bytesToWordsLE]
  | case5 b0 b1 b2 => simp [bytesToWordsLE]

theorem wordsToBytesLE_length (ws : List Nat) :
    (wordsToBytesLE ws).length = 4 * ws.length := by
  induction ws with
  | nil => simp [wordsToBytesLE]
  | cons w rest ih => simp [wordsToBytesLE, ih]; omega

theorem qrAt_length (s : List Nat) (i j k l : Nat) :
    (qrAt s i j k l).length = s.length := by
  unfold qrAt
  rcases quarterRound (gw s i) (gw s j) (gw s k) (gw s l) with ⟨a, b, c, d⟩
  simp

theorem doubleRound_length (s : List Nat) : (doubleRound s).length = s.length := by
  simp [doubleRound, qrAt_length]

theorem rounds20_length (s : List Nat) : (rounds20 s).length = s.length := by
  simp [rounds20, iterN, doubleRound_length]

theorem chachaBlock_length (key : List Nat) (c : Nat) (n12 : List Nat) :
    (chachaBlock key c n12).length = 4 * (chachaInit key c n12).length := by
  simp [chachaBlock, wordsToBytesLE_length, rounds20_length]

theorem chachaInit_length_16 (key : List Nat) (c : Nat) (n12 : List Nat)
    (hk : key.length = 32) (hn : n12.length = 12) :
    (chachaInit key c n12).length = 16 := by
  have h1 : key.take 32 = key := List.take_of_length_le (by omega)
  have h2 : n12.take 12 = n12 := List.take_of_length_le (by omega)
  simp [chachaInit, h1, h2, bytesToWordsLE_length, hk, hn, chachaConsts]

theorem ksBlocks_length (key n12 : List Nat) (hk : key.length = 32)
    (hn : n12.length = 12) (c f : Nat) :
    (ksBlocks key n12 c f).length = 64 * f := by
  induction f generalizing c with
  | zero => simp [ksBlocks]
  | succ f ih =>
    simp [ksBlocks, chachaBlock_length, chachaInit_length_16 key c n12 hk hn, ih]
    omega

theorem ksBytes_length (key n12 : List Nat) (hk : key.length = 32)
    (hn : n12.length = 12) (c n : Nat) :
    (ksBytes key n12 c n).length = n := by
  have h := ksBlocks_length key n12 hk hn c ((n + 63) / 64)
  have hd := Nat.div_add_mod (n + 63) 64
  have hm : (n + 63) % 64 < 64 := Nat.mod_lt _ (by omega)
  simp [ksBytes, h]
  omega

theorem xorBytes_length (a b : List Nat) :
    (xorBytes a b).length = min a.length b.length := by
  simp [xorBytes]

theorem xorBytes_xorBytes (p k : List Nat) (h : p.length ≤ k.length) :
    xorBytes (xorBytes p k) k = p := by
  induction p generalizing k with
  | nil => simp [xorBytes]
  | cons x xs ih =>
    cases k with
    | nil => simp at h
    | cons y ys =>
      simp only [xorBytes, List.zipWith] at *
      rw [Nat.xor_assoc, Nat.xor_self, Nat.xor_zero]
      simp only [List.cons.injEq, true_and]
      exact ih ys (by simpa using h)

theorem leBytes_length (n v : Nat) : (leBytes n v).length = n := by
  induction n generalizing v with
  | zero => simp [leBytes]
  | succ n ih => simp [leBytes, ih]

theorem polyTag_length (otk msg : List Nat) : (polyTag otk msg).length = 16 := by
  simp [polyTag, leBytes_length]

theorem hchacha20_length (key n16 : List Nat) (hk : key.length = 32)
    (hn : 16 ≤ n16.length) : (hchacha20 key n16).length = 32 := by
  have h1 : key.take 32 = key := List.take_of_length_le (by omega)
  have hs : (rounds20 (chachaConsts ++ bytesToWordsLE (key.take 32)
      ++ bytesToWordsLE (n16.take 16))).length = 16 := by
    rw [rounds20_length]
    simp only [List.length_append, bytesToWordsLE_length, h1, hk, List.length_take]
    simp [chachaConsts]
    omega
  simp only [hchacha20, wordsToBytesLE_length, List.length_append, List.length_take,
    List.length_drop, hs]
  omega

theorem xsubkey_length (key nonce24 : List Nat) (hk : key.length = 32)
    (hn : 16 ≤ nonce24.length) : (xsubkey key nonce24).length = 32 := by
  apply hchacha20_length key _ hk
  simp
  omega

theorem xnonce12_length (nonce24 : List Nat) (hn : nonce24.length = 24) :
    (xnonce12 nonce24).length = 12 := by
  simp [xnonce12]; omega

/-- The ciphertext body produced by `aeadEncrypt` has the plaintext's length. -/
theorem aead_body_length (key nonce24 pt : List Nat) (hk : key.length = 32)
    (hn : nonce24.length = 24) :
    (xorBytes pt (ksBytes (xsubkey key nonce24) (xnonce12 nonce24) 1 pt.length)).length
      = pt.length := by
  rw [xorBytes_length, ksBytes_length _ _ (xsubkey_length key nonce24 hk (by omega))
    (xnonce12_length nonce24 hn)]
  simp

/-- AEAD round trip: decrypting an honest encryption recovers the plaintext. -/
theorem aeadDecrypt_aeadEncrypt (key nonce24 pt : List Nat) (hk : key.length = 32)
    (hn : nonce24.length = 24) :
    aeadDecrypt key nonce24 (aeadEncrypt key nonce24 pt) = some pt := by
  have hsub : (xsubkey key nonce24).length = 32 := xsubkey_length key nonce24 hk (by omega)
  have hn12 : (xnonce12 nonce24).length = 12 := xnonce12_length nonce24 hn
  have hks : (ksBytes (xsubkey key nonce24) (xnonce12 nonce24) 1 pt.length).length
      = pt.length := ksBytes_length _ _ hsub hn12 1 pt.length
  have henc : aeadEncrypt key nonce24 pt
      = xorBytes pt (ksBytes (xsubkey key nonce24) (xnonce12 nonce24) 1 pt.length)
        ++ polyTag (polyOtk key nonce24)
          (macData (xorBytes pt
            (ksBytes (xsubkey key nonce24) (xnonce12 nonce24) 1 pt.length))) := rfl
  rw [henc]
  set ct := xorBytes pt (ksBytes (xsubkey key nonce24) (xnonce12 nonce24) 1 pt.length)
    with hct
  have hbody : ct.length = pt.length := aead_body_length key nonce24 pt hk hn
  set tag := polyTag (polyOtk key nonce24) (macData ct) with htag
  have htlen : tag.length = 16 := polyTag_length _ _
  have hlen : (ct ++ tag).length = pt.length + 16 := by simp [hbody, htlen]
  have hsplit : (ct ++ tag).length - 16 = ct.length := by omega
  have htake : (ct ++ tag).take ((ct ++ tag).length - 16) = ct := by
    rw [hsplit]; exact List.take_left ct tag
  have hdrop : (ct ++ tag).drop ((ct ++ tag).length - 16) = tag := by
    rw [hsplit]; exact List.drop_left ct tag
  have hmatch : tagMatches key nonce24 (ct ++ tag) = true := by
    unfold tagMatches
    rw [htake, hdrop]
    simp only [Bool.and_eq_true, decide_eq_true_eq]
    exact ⟨by omega, by trivial⟩
  unfold aeadDecrypt
  rw [hmatch]
  simp only [if_true, htake, hbody]
  rw [hct, xorBytes_xorBytes pt _ (by omega)]

/-! ## C7: AEAD correctness of `encrypt_message` / `decrypt_message` -/

/-- C7. For every 32-byte key and 24-byte nonce and every plaintext,
`decrypt_message` applied to the ciphertext and nonce returned by
`encrypt_message` yields exactly the original plaintext; and `decrypt_message`
returns a plaintext only when the authentication tag verifies (on any other
input it fails — in this code by panicking — rather than returning a wrong
plaintext). -/
theorem encrypt_decrypt_roundtrip (key pt nonce : List Nat)
    (hk : key.length = 32) (hn : nonce.length = 24) :
    decrypt_message key (encrypt_message key pt nonce).1
        (encrypt_message key pt nonce).2 = .ok pt
      ∧ ∀ ct pt2, decrypt_message key ct nonce = .ok pt2 →
          tagMatches key nonce ct = true := by
  constructor
  · simp only [encrypt_message, decrypt_message,
      aeadDecrypt_aeadEncrypt key nonce pt hk hn]
  · intro ct pt2 h
    by_cases htag : tagMatches key nonce ct = true
    · exact htag
    · rw [Bool.not_eq_true] at htag
      simp [decrypt_message, aeadDecrypt, htag] at h

/-- Witness for C7 at a concrete input: the zero key, the zero nonce and the
plaintext `[104, 105]` (the bytes of `"hi"`). -/
theorem encrypt_decrypt_roundtrip_witness :
    decrypt_message (List.replicate 32 0)
        (encrypt_message (List.replicate 32 0) [104, 105] (List.replicate 24 0)).1
        (encrypt_message (List.replicate 32 0) [104, 105] (List.replicate 24 0)).2
      = .ok [104, 105] :=
  (encrypt_decrypt_roundtrip (List.replicate 32 0) [104, 105] (List.replicate 24 0)
    (by decide) (by decide)).1

/-! ## C1: behaviour of `decrypt_message` on a tampered ciphertext -/

/-- The ciphertext of `"hi"` under the all-zero key and all-zero nonce. -/
def c1ct : List Nat :=
  (encrypt_message (List.replicate 32 0) [104, 105] (List.replicate 24 0)).1

/-- `c1ct` with a single bit flipped in its first byte. -/
def c1tampered : List Nat :=
  match c1ct with
  | [] => []
  | b :: rest => (b ^^^ 1) :: rest

set_option maxRecDepth 100000 in
/-- C1. At a concrete failing input — the all-zero 32-byte key, the all-zero
24-byte nonce, and the honest ciphertext of `"hi"` with one bit flipped — the
authentication tag does not verify, and `decrypt_message` (and `Session.decrypt`
delegating to it) panics with `"decryption failure!"` via `.expect` instead of
returning an error as the specification requires. -/
theorem decrypt_message_panics_on_tampered_ciphertext :
    tagMatches (List.replicate 32 0) (List.replicate 24 0) c1tampered = false
      ∧ decrypt_message (List.replicate 32 0) c1tampered (List.replicate 24 0)
          = .panics "decryption failure!"
      ∧ Session.decrypt (Session.new (List.replicate 32 0)) c1tampered
          (List.replicate 24 0) = .panics "decryption failure!" := by
  refine ⟨by decide, by decide, by decide⟩

/-! ## C5: behaviour of the unimplemented `AES256GCM` cipher arm -/

/-- C5 counterexample. With an `AES256GCM` session (built directly from the
public fields, since `Session::new` never selects it), the first `encrypt` call
does not return an "unsupported cipher" error: it panics with
`"AES256GCM not yet implemented"`. -/
theorem session_aes_encrypt_panics_concrete :
    Session.encrypt { key := List.replicate 32 0, cipher := CipherType.AES256GCM }
        [104] (List.replicate 24 0) = .panics "AES256GCM not yet implemented" := by
  decide

/-- C5 (amended). `Session::new` always selects `XChaCha20Poly1305` (so an
`AES256GCM` session can arise only from direct struct construction), and on an
`AES256GCM` session both `encrypt` and `decrypt` panic with
`"AES256GCM not yet implemented"` on first use — there is no silent fallback to
another cipher, but the failure is a panic, not an error return. -/
theorem session_aes_panics :
    (∀ key, (Session.new key).cipher = CipherType.XChaCha20Poly1305)
      ∧ (∀ (s : Session) pt nonce, s.cipher = CipherType.AES256GCM →
          Session.encrypt s pt nonce = .panics "AES256GCM not yet implemented")
      ∧ (∀ (s : Session) ct nonce, s.cipher = CipherType.AES256GCM →
          Session.decrypt s ct nonce = .panics "AES256GCM not yet implemented") := by
  refine ⟨fun key => rfl, fun s pt nonce h => ?_, fun s ct nonce h => ?_⟩
  · simp [Session.encrypt, h]
  · simp [Session.decrypt, h]

/-- Witness for C5 at concrete inputs. -/
theorem session_aes_panics_witness :
    (Session.new (List.replicate 32 0)).cipher = CipherType.XChaCha20Poly1305
      ∧ Session.decrypt { key := [], cipher := CipherType.AES256GCM } [] []
          = .panics "AES256GCM not yet implemented" :=
  ⟨session_aes_panics.1 (List.replicate 32 0),
   session_aes_panics.2.2 { key := [], cipher := CipherType.AES256GCM } [] [] rfl⟩

/-! ## C10: the nonce-length precondition of `Session::decrypt` -/

/-- C10. On an `XChaCha20Poly1305` session, `Session::decrypt` evaluates
`&nonce[..24]`: for every nonce slice shorter than 24 bytes it panics (slice
range out of bounds) instead of returning an error, and for every nonce of
length at least 24 only the first 24 bytes are used — any bytes beyond them are
silently ignored. -/
theorem session_decrypt_nonce_slice :
    (∀ (s : Session) ct nonce, s.cipher = CipherType.XChaCha20Poly1305 →
        nonce.length < 24 →
        Session.decrypt s ct nonce = .panics "range end index 24 out of range")
      ∧ (∀ (s : Session) ct (n1 n2 : List Nat),
          s.cipher = CipherType.XChaCha20Poly1305 → n1.length = 24 →
          Session.decrypt s ct (n1 ++ n2) = Session.decrypt s ct n1) := by
  constructor
  · intro s ct nonce hc hlen
    simp [Session.decrypt, hc, hlen]
  · intro s ct n1 n2 hc hlen
    have h1 : ¬ (n1 ++ n2).length < 24 := by simp [hlen]
    have h2 : ¬ n1.length < 24 := by omega
    have h3 : (n1 ++ n2).take 24 = n1 := by
      rw [← hlen]; exact List.take_left n1 n2
    have h4 : n1.take 24 = n1 := List.take_of_length_le (by omega)
    simp only [Session.decrypt, hc, if_neg h1, if_neg h2, h3, h4]

/-- Witness for C10 at concrete inputs: a 1-byte nonce panics; a 25-byte nonce
behaves as its first 24 bytes. -/
theorem session_decrypt_nonce_slice_witness :
    Session.decrypt (Session.new (List.replicate 32 0)) [] [0]
        = .panics "range end index 24 out of range"
      ∧ Session.decrypt (Session.new (List.replicate 32 0)) []
          (List.replicate 24 0 ++ [5])
        = Session.decrypt (Session.new (List.replicate 32 0)) [] (List.replicate 24 0) :=
  ⟨session_decrypt_nonce_slice.1 _ [] [0] rfl (by decide),
   session_decrypt_nonce_slice.2 _ [] (List.replicate 24 0) [5] rfl (by decide)⟩

/-! ## Base64 (the `base64` crate, `general_purpose::STANDARD`: padded,
canonical padding required, non-zero trailing bits rejected) -/

/-- The standard base64 alphabet: 6-bit index to ASCII byte. -/
def b64char (i : Nat) : Nat :=
  if i < 26 then 65 + i
  else if i < 52 then 97 + (i - 26)
  else if i < 62 then 48 + (i - 52)
  else if i = 62 then 43
  else 47

/-- Inverse of the standard base64 alphabet: ASCII byte to 6-bit index. -/
def b64index (c : Nat) : Option Nat :=
  if 65 ≤ c ∧ c ≤ 90 then some (c - 65)
  else if 97 ≤ c ∧ c ≤ 122 then some (26 + (c - 97))
  else if 48 ≤ c ∧ c ≤ 57 then some (52 + (c - 48))
  else if c = 43 then some 62
  else if c = 47 then some 63
  else none

/-- `STANDARD.encode`: 3-byte groups to 4 alphabet characters, with `=` padding
(byte 61) for a trailing 1- or 2-byte group. -/
def base64encode : List Nat → List Nat
  | [] => []
  | [b1] => [b64char (b1 % 256 / 4), b64char (b1 % 256 % 4 * 16), 61, 61]
  | [b1, b2] =>
    [b64char (b1 % 256 / 4), b64char (b1 % 256 % 4 * 16 + b2 % 256 / 16),
     b64char (b2 % 256 % 16 * 4), 61]
  | b1 :: b2 :: b3 :: rest =>
    [b64char (b1 % 256 / 4), b64char (b1 % 256 % 4 * 16 + b2 % 256 / 16),
     b64char (b2 % 256 % 16 * 4 + b3 % 256 / 64), b64char (b3 % 256 % 64)]
      ++ base64encode rest

/-- `STANDARD.decode`: strict decoding. Inputs whose length is not a multiple
of 4, characters outside the alphabet, non-final or non-canonical padding, and
non-zero trailing bits are all errors; it never truncates or pads data. -/
def base64decode : List Nat → Except String (List Nat)
  | [] => .ok []
  | c1 :: c2 :: c3 :: c4 :: rest =>
    match b64index c1, b64index c2 with
    | some i1, some i2 =>
      if c3 = 61 then
        if c4 = 61 ∧ rest = [] ∧ i2 % 16 = 0 then .ok [i1 * 4 + i2 / 16]
        else .error "invalid base64"
      else
        match b64index c3 with
        | some i3 =>
          if c4 = 61 then
            if rest = [] ∧ i3 % 4 = 0 then
              .ok [i1 * 4 + i2 / 16, i2 % 16 * 16 + i3 / 4]
            else .error "invalid base64"
          else
            match b64index c4 with
            | some i4 =>
              match base64decode rest with
              | .ok tail =>
                .ok ([i1 * 4 + i2 / 16, i2 % 16 * 16 + i3 / 4, i3 % 4 * 64 + i4] ++ tail)
              | .error e => .error e
            | none => .error "invalid byte"
        | none => .error "invalid byte"
    | _, _ => .error "invalid byte"
  | _ => .error "invalid length"

theorem b64index_b64char {i : Nat} (h : i < 64) : b64index (b64char i) = some i := by
  revert h
  revert i
  decide

theorem b64char_ne_eq {i : Nat} (h : i < 64) : b64char i ≠ 61 := by
  revert h
  revert i
  decide

/-- Base64 round trip for byte lists. -/
theorem base64decode_base64encode (bs : List Nat) (hb : ∀ b ∈ bs, b < 256) :
    base64decode (base64encode bs) = .ok bs := by
  induction bs using base64encode.induct with
  | case1 => rfl
  | case2 b1 =>
    have h1 : b1 < 256 := hb b1 (by simp)
    have e1 : b1 % 256 = b1 := Nat.mod_eq_of_lt h1
    simp only [base64encode, e1, base64decode,
      b64index_b64char (show b1 / 4 < 64 by omega),
      b64index_b64char (show b1 % 4 * 16 < 64 by omega)]
    have : b1 % 4 * 16 % 16 = 0 := by omega
    simp [this]
    omega
  | case3 b1 b2 =>
    have h1 : b1 < 256 := hb b1 (by simp)
    have h2 : b2 < 256 := hb b2 (by simp)
    have e1 : b1 % 256 = b1 := Nat.mod_eq_of_lt h1
    have e2 : b2 % 256 = b2 := Nat.mod_eq_of_lt h2
    simp only [base64encode, e1, e2, base64decode,
      b64index_b64char (show b1 / 4 < 64 by omega),
      b64index_b64char (show b1 % 4 * 16 + b2 / 16 < 64 by omega),
      b64index_b64char (show b2 % 16 * 4 < 64 by omega)]
    rw [if_neg (b64char_ne_eq (show b2 % 16 * 4 < 64 by omega))]
    have : b2 % 16 * 4 % 4 = 0 := by omega
    simp [this]
    constructor
    · omega
    · omega
  | case4 b1 b2 b3 rest ih =>
    have h1 : b1 < 256 := hb b1 (by simp)
    have h2 : b2 < 256 := hb b2 (by simp)
    have h3 : b3 < 256 := hb b3 (by simp)
    have e1 : b1 % 256 = b1 := Nat.mod_eq_of_lt h1
    have e2 : b2 % 256 = b2 := Nat.mod_eq_of_lt h2
    have e3 : b3 % 256 = b3 := Nat.mod_eq_of_lt h3
    have hrest : ∀ b ∈ rest, b < 256 := fun b hbm => hb b (by simp [hbm])
    simp only [base64encode, e1, e2, e3, List.cons_append, List.nil_append,
      base64decode,
      b64index_b64char (show b1 / 4 < 64 by omega),
      b64index_b64char (show b1 % 4 * 16 + b2 / 16 < 64 by omega),
      b64index_b64char (show b2 % 16 * 4 + b3 / 64 < 64 by omega),
      b64index_b64char (show b3 % 64 < 64 by omega)]
    rw [if_neg (b64char_ne_eq (show b2 % 16 * 4 + b3 / 64 < 64 by omega))]
    rw [if_neg (b64char_ne_eq (show b3 % 64 < 64 by omega))]
    simp only [List.append_eq, List.nil_append]
    rw [ih hrest]
    simp only [Except.ok.injEq, List.cons_append, List.nil_append, List.cons.injEq]
    refine ⟨by omega, by omega, by omega, trivial⟩

/-! ## `peer-common/src/crypto.rs`: `pubkey_to_b64` / `pubkey_from_b64` -/

/-- `pubkey_to_b64` from `crypto.rs`: base64 of the 32 public-key bytes. -/
def pubkey_to_b64 (pubkey : List Nat) : List Nat := base64encode pubkey

/-- `pubkey_from_b64` from `crypto.rs`: strict base64 decode (`?` propagates its
error), then `try_into` a `[u8; 32]`, which fails with
`"Invalid public key length"` unless exactly 32 bytes were decoded. -/
def pubkey_from_b64 (b64 : List Nat) : Except String (List Nat) :=
  match base64decode b64 with
  | .error e => .error e
  | .ok bytes =>
    if bytes.length = 32 then .ok bytes else .error "Invalid public key length"

/-- C9. Public-key base64 encoding round-trips exactly for every 32-byte key,
and `pubkey_from_b64` succeeds only on inputs that strictly base64-decode to
exactly 32 bytes, returning exactly those bytes — malformed base64 or a wrong
decoded length yields an error, never a truncated or padded key. -/
theorem pubkey_b64_roundtrip :
    (∀ pk : List Nat, pk.length = 32 → (∀ b ∈ pk, b < 256) →
        pubkey_from_b64 (pubkey_to_b64 pk) = .ok pk)
      ∧ (∀ s pk : List Nat, pubkey_from_b64 s = .ok pk →
          base64decode s = .ok pk ∧ pk.length = 32) := by
  constructor
  · intro pk hlen hb
    simp [pubkey_from_b64, pubkey_to_b64, base64decode_base64encode pk hb, hlen]
  · intro s pk h
    cases hdec : base64decode s with
    | error e => simp [pubkey_from_b64, hdec] at h
    | ok bytes =>
      simp only [pubkey_from_b64, hdec] at h
      by_cases hl : bytes.length = 32
      · rw [if_pos hl] at h
        cases h
        exact ⟨rfl, hl⟩
      · rw [if_neg hl] at h
        exact absurd h (by simp)

/-- Witness for C9 at a concrete input: the all-zero 32-byte key. -/
theorem pubkey_b64_roundtrip_witness :
    pubkey_from_b64 (pubkey_to_b64 (List.replicate 32 0)) = .ok (List.replicate 32 0)
      ∧ (base64decode (pubkey_to_b64 (List.replicate 32 0)) = .ok (List.replicate 32 0)
          ∧ (List.replicate 32 0 : List Nat).length = 32) :=
  ⟨pubkey_b64_roundtrip.1 (List.replicate 32 0) (by decide) (by decide),
   pubkey_b64_roundtrip.2 (pubkey_to_b64 (List.replicate 32 0)) (List.replicate 32 0)
     (pubkey_b64_roundtrip.1 (List.replicate 32 0) (by decide) (by decide))⟩

/-! ## `peer-common/src/types.rs`: `WireMessage`, and its JSON wire format

`WireMessage` derives serde `Serialize`/`Deserialize`; frames carry
`serde_json::to_vec` output and are parsed with `serde_json::from_slice`
(`peer-core/src/net.rs`). Rust `String` fields are embedded as their UTF-8
byte lists; `u64` as `Nat`. The encoder below is serde_json's compact
serialization of the externally tagged enum; the decoder is the recursive
descent that serde_json's parser driven by the derived `Deserialize` impl
performs: type-directed, accepting fields in any order, rejecting duplicate
fields, unescaped control characters, non-canonical numbers, and trailing
input. Two knowingly simplified corners, neither reachable from encoder
output: unknown struct fields are rejected here while serde skips their
values, and `\uXXXX` escapes for surrogates are rejected here while serde
pairs them. -/

/-- `WireMessage` from `types.rs`. -/
inductive WireMessage where
  | Handshake (pubkey : List Nat)
  | Chat (sender_id : List Nat) (timestamp : Nat) (payload : List Nat) (nonce : List Nat)
  | Ack (id : List Nat)
  | Ping
deriving DecidableEq, Repr

/-- The UTF-8 bytes of `"Handshake"`. -/
def tHandshake : List Nat := [72, 97, 110, 100, 115, 104, 97, 107, 101]

/-- The UTF-8 bytes of `"Chat"`. -/
def tChat : List Nat := [67, 104, 97, 116]

/-- The UTF-8 bytes of `"Ack"`. -/
def tAck : List Nat := [65, 99, 107]

/-- The UTF-8 bytes of `"Ping"`. -/
def tPing : List Nat := [80, 105, 110, 103]

/-- The UTF-8 bytes of `"pubkey"`. -/
def fnPubkey : List Nat := [112, 117, 98, 107, 101, 121]

/-- The UTF-8 bytes of `"sender_id"`. -/
def fnSenderId : List Nat := [115, 101, 110, 100, 101, 114, 95, 105, 100]

/-- The UTF-8 bytes of `"timestamp"`. -/
def fnTimestamp : List Nat := [116, 105, 109, 101, 115, 116, 97, 109, 112]

/-- The UTF-8 bytes of `"payload"`. -/
def fnPayload : List Nat := [112, 97, 121, 108, 111, 97, 100]

/-- The UTF-8 bytes of `"nonce"`. -/
def fnNonce : List Nat := [110, 111, 110, 99, 101]

/-- The UTF-8 bytes of `"id"`. -/
def fnId : List Nat := [105, 100]

/-- A lowercase hex digit character. -/
def hexDigit (d : Nat) : Nat := if d < 10 then 48 + d else 87 + d

/-- serde_json's escaping of one string byte: `\"`, `\\`, short escapes for
the common control characters, `\u00XX` for the other control characters,
everything else raw. -/
def escapeByte (b : Nat) : List Nat :=
  if b = 34 then [92, 34]
  else if b = 92 then [92, 92]
  else if b = 8 then [92, 98]
  else if b = 9 then [92, 116]
  else if b = 10 then [92, 110]
  else if b = 12 then [92, 102]
  else if b = 13 then [92, 114]
  else if b < 32 then [92, 117, 48, 48, hexDigit (b / 16), hexDigit (b % 16)]
  else [b]

/-- Escaping of a whole string body. -/
def escapeBytes : List Nat → List Nat
  | [] => []
  | b :: rest => escapeByte b ++ escapeBytes rest

/-- A serialized JSON string: quote, escaped body, quote. -/
def encodeString (s : List Nat) : List Nat := 34 :: (escapeBytes s ++ [34])

/-- The decimal digit characters of `n`, most significant first. -/
def digitChars (n : Nat) : List Nat := ((Nat.digits 10 n).map (fun d => 48 + d)).reverse

/-- serde_json's serialization of a `u64`. -/
def printNat (n : Nat) : List Nat := if n = 0 then [48] else digitChars n

/-- serde_json's compact serialization of a `WireMessage` (externally tagged:
a unit variant is a bare string, other variants are single-key objects). -/
def encodeWire : WireMessage → List Nat
  | .Ping => 34 :: tPing ++ [34]
  | .Handshake pk =>
    [123, 34] ++ tHandshake ++ [34, 58, 123, 34] ++ fnPubkey ++ [34, 58]
      ++ encodeString pk ++ [125, 125]
  | .Ack i =>
    [123, 34] ++ tAck ++ [34, 58, 123, 34] ++ fnId ++ [34, 58]
      ++ encodeString i ++ [125, 125]
  | .Chat sid ts pl nc =>
    [123, 34] ++ tChat ++ [34, 58, 123, 34] ++ fnSenderId ++ [34, 58]
      ++ encodeString sid ++ [44, 34] ++ fnTimestamp ++ [34, 58]
      ++ printNat ts ++ [44, 34] ++ fnPayload ++ [34, 58]
      ++ encodeString pl ++ [44, 34] ++ fnNonce ++ [34, 58]
      ++ encodeString nc ++ [125, 125]

/-- Whether a byte is JSON whitespace (space, tab, line feed, carriage return). -/
def isWs (b : Nat) : Bool := decide (b = 32) || decide (b = 9) || decide (b = 10) || decide (b = 13)

/-- Skip leading JSON whitespace. -/
def skipWs : List Nat → List Nat
  | [] => []
  | b :: rest => if isWs b then skipWs rest else b :: rest

/-- The byte decoded by a simple backslash escape, if any. -/
def escCode (e : Nat) : Option Nat :=
  if e = 34 then some 34
  else if e = 92 then some 92
  else if e = 47 then some 47
  else if e = 98 then some 8
  else if e = 102 then some 12
  else if e = 110 then some 10
  else if e = 114 then some 13
  else if e = 116 then some 9
  else none

/-- The value of a hex digit character, if any. -/
def hexVal (c : Nat) : Option Nat :=
  if 48 ≤ c ∧ c ≤ 57 then some (c - 48)
  else if 97 ≤ c ∧ c ≤ 102 then some (c - 87)
  else if 65 ≤ c ∧ c ≤ 70 then some (c - 55)
  else none

/-- UTF-8 encoding of a basic-multilingual-plane code point. -/
def utf8Bytes (c : Nat) : List Nat :=
  if c < 128 then [c]
  else if c < 2048 then [192 + c / 64, 128 + c % 64]
  else [224 + c / 4096, 128 + c / 64 % 64, 128 + c % 64]

/-- The code point of a `\uXXXX` escape from its four hex digit values. -/
def hex4 (a b c d : Option Nat) : Option Nat :=
  match a, b, c, d with
  | some v1, some v2, some v3, some v4 => some (((v1 * 16 + v2) * 16 + v3) * 16 + v4)
  | _, _, _, _ => none

/-- Parse a JSON string body after the opening quote, returning the decoded
bytes and the input after the closing quote. Unescaped control characters are
errors; `\uXXXX` decodes to UTF-8 (surrogates rejected, see the section
comment). The `escCode` lookup rejects an unknown escape character; `\u` is
dispatched before it. -/
def parseStringBody : List Nat → Option (List Nat × List Nat)
  | [] => none
  | b :: rest =>
    if b = 34 then some ([], rest)
    else if b = 92 then
      match rest with
      | [] => none
      | e :: rest2 =>
        if e = 117 then
          match rest2 with
          | h1 :: h2 :: h3 :: h4 :: rest3 =>
            (hex4 (hexVal h1) (hexVal h2) (hexVal h3) (hexVal h4)).bind (fun c =>
              if 55296 ≤ c ∧ c ≤ 57343 then none
              else Option.map (fun p => (utf8Bytes c ++ p.1, p.2)) (parseStringBody rest3))
          | _ => none
        else
          (escCode e).bind (fun c =>
            Option.map (fun p => (c :: p.1, p.2)) (parseStringBody rest2))
    else if b < 32 then none
    else Option.map (fun p => (b :: p.1, p.2)) (parseStringBody rest)

/-- Parse a JSON string including its opening quote (leading whitespace
already consumed). -/
def parseJsonString (s : List Nat) : Option (List Nat × List Nat) :=
  match s with
  | 34 :: rest => parseStringBody rest
  | _ => none

/-- Whether a byte is a decimal digit character. -/
def isDigit (b : Nat) : Bool := decide (48 ≤ b) && decide (b ≤ 57)

/-- Take the longest digit-character run. -/
def takeDigits : List Nat → List Nat × List Nat
  | [] => ([], [])
  | b :: rest =>
    if isDigit b then (b :: (takeDigits rest).1, (takeDigits rest).2)
    else ([], b :: rest)

/-- The value of a most-significant-first digit-character run. -/
def digitsVal (ds : List Nat) : Nat := ds.foldl (fun a b => 10 * a + (b - 48)) 0

/-- Reject a fraction or exponent after the integer part (a float is a type
error for a `u64` field) and return the value. -/
def numTail (v : Nat) (r : List Nat) : Option (Nat × List Nat) :=
  match r with
  | c :: _ => if c = 46 ∨ c = 101 ∨ c = 69 then none else some (v, r)
  | [] => some (v, [])

/-- Parse a JSON `u64`: digits without a leading zero, no sign, no fraction,
no exponent (leading whitespace already consumed). -/
def parseNumberU64 (s : List Nat) : Option (Nat × List Nat) :=
  match s with
  | [] => none
  | b :: rest =>
    if b = 48 then
      match rest with
      | r1 :: _ => if isDigit r1 then none else numTail 0 rest
      | [] => some (0, [])
    else if isDigit b then
      match takeDigits rest with
      | (ds, r) => numTail (digitsVal (b :: ds)) r
    else none

/-- What one struct entry step yields: the struct closed before a key, or an
entry was parsed and a comma continues the loop, or an entry was parsed and a
closing brace ends the struct. -/
inductive EntryOut (α : Type) where
  | close (r : List Nat)
  | cont (acc : α) (r : List Nat)
  | fin (acc : α) (r : List Nat)
deriving DecidableEq, Repr

/-- Classify the input after a struct field value: a comma continues the field
loop, a closing brace ends the struct. -/
def entryEnd {α : Type} (acc : α) (s : List Nat) : Option (EntryOut α) :=
  match skipWs s with
  | 44 :: r => some (.cont acc r)
  | 125 :: r => some (.fin acc r)
  | _ => none

/-- The four optional slots of the derived field visitor for `Chat`. -/
structure ChatFields where
  sid : Option (List Nat)
  ts : Option Nat
  pl : Option (List Nat)
  nc : Option (List Nat)
deriving DecidableEq, Repr

/-- One entry of the `Chat` struct variant: parse a key, dispatch on its name
(type-directed value parse, duplicates rejected), classify the continuation. -/
def chatEntry (s : List Nat) (acc : ChatFields) : Option (EntryOut ChatFields) :=
  match skipWs s with
  | 125 :: r => some (.close r)
  | 34 :: rest =>
    match parseStringBody rest with
    | none => none
    | some (name, r1) =>
      match skipWs r1 with
      | 58 :: r3 =>
        let r4 := skipWs r3
        if name = fnSenderId then
          match acc.sid with
          | some _ => none
          | none =>
            match parseJsonString r4 with
            | some (v, r5) => entryEnd { acc with sid := some v } r5
            | none => none
        else if name = fnTimestamp then
          match acc.ts with
          | some _ => none
          | none =>
            match parseNumberU64 r4 with
            | some (v, r5) => entryEnd { acc with ts := some v } r5
            | none => none
        else if name = fnPayload then
          match acc.pl with
          | some _ => none
          | none =>
            match parseJsonString r4 with
            | some (v, r5) => entryEnd { acc with pl := some v } r5
            | none => none
        else if name = fnNonce then
          match acc.nc with
          | some _ => none
          | none =>
            match parseJsonString r4 with
            | some (v, r5) => entryEnd { acc with nc := some v } r5
            | none => none
        else none
      | _ => none
  | _ => none

/-- The field loop of the derived `Deserialize` for the `Chat` struct variant,
after the opening brace. The loop of the derived impl is bounded only by the
input; since each iteration must consume a new distinct key out of 4 known
ones or fail, a fuel of 6 is equivalent. -/
def parseChatFields : Nat → List Nat → ChatFields → Option (ChatFields × List Nat)
  | 0, _, _ => none
  | fuel + 1, s, acc =>
    (chatEntry s acc).bind (fun e =>
      match e with
      | .close r => some (acc, r)
      | .fin acc2 r => some (acc2, r)
      | .cont acc2 r => parseChatFields fuel r acc2)

/-- One entry of a single-field struct variant (`Handshake`/`Ack`), with the
field name as a parameter. -/
def oneEntry (fname : List Nat) (s : List Nat) (acc : Option (List Nat)) :
    Option (EntryOut (Option (List Nat))) :=
  match skipWs s with
  | 125 :: r => some (.close r)
  | 34 :: rest =>
    match parseStringBody rest with
    | none => none
    | some (name, r1) =>
      match skipWs r1 with
      | 58 :: r3 =>
        if name = fname then
          match acc with
          | some _ => none
          | none =>
            match parseJsonString (skipWs r3) with
            | some (v, r5) => entryEnd (some v) r5
            | none => none
        else none
      | _ => none
  | _ => none

/-- The field loop for a single-field struct variant. -/
def parseOneField (fname : List Nat) : Nat → List Nat → Option (List Nat) →
    Option (Option (List Nat) × List Nat)
  | 0, _, _ => none
  | fuel + 1, s, acc =>
    (oneEntry fname s acc).bind (fun e =>
      match e with
      | .close r => some (acc, r)
      | .fin v r => some (v, r)
      | .cont v r => parseOneField fname fuel r v)

/-- After the variant content of a tagged enum value: the outer single-key
object must close, and then only whitespace may remain in the input. -/
def closeOuter (r : List Nat) : Bool :=
  match skipWs r with
  | 125 :: r2 => decide (skipWs r2 = [])
  | _ => false

/-- `serde_json::from_slice::<WireMessage>`: parse one JSON value, driven by
the derived `Deserialize` of the externally tagged enum, requiring end of
input afterwards. -/
def decodeWire (buf : List Nat) : Option WireMessage :=
  match skipWs buf with
  | 34 :: rest =>
    match parseStringBody rest with
    | some (name, r) =>
      if name = tPing ∧ skipWs r = [] then some .Ping else none
    | none => none
  | 123 :: rest =>
    match skipWs rest with
    | 34 :: r2 =>
      match parseStringBody r2 with
      | none => none
      | some (tag, r3) =>
        match skipWs r3 with
        | 58 :: r4 =>
          let r5 := skipWs r4
          if tag = tHandshake then
            match r5 with
            | 123 :: r6 =>
              match parseOneField fnPubkey 6 r6 none with
              | some (some v, r7) =>
                if closeOuter r7 then some (.Handshake v) else none
              | _ => none
            | _ => none
          else if tag = tChat then
            match r5 with
            | 123 :: r6 =>
              match parseChatFields 6 r6 ⟨none, none, none, none⟩ with
              | some (⟨some sid, some ts, some pl, some nc⟩, r7) =>
                if closeOuter r7 then some (.Chat sid ts pl nc) else none
              | _ => none
            | _ => none
          else if tag = tAck then
            match r5 with
            | 123 :: r6 =>
              match parseOneField fnId 6 r6 none with
              | some (some v, r7) =>
                if closeOuter r7 then some (.Ack v) else none
              | _ => none
            | _ => none
          else if tag = tPing then
            match r5 with
            | 110 :: 117 :: 108 :: 108 :: r6 =>
              if closeOuter r6 then some .Ping else none
            | _ => none
          else none
        | _ => none
    | _ => none
  | _ => none

/-! ## Round-trip lemmas for the JSON wire format -/

theorem hexVal_hexDigit {d : Nat} (h : d < 16) : hexVal (hexDigit d) = some d := by
  revert h
  revert d
  decide

/-- Parsing an escaped string body (followed by the closing quote) recovers
exactly the original bytes. -/
theorem parseStringBody_escape (s rest : List Nat) :
    parseStringBody (escapeBytes s ++ 34 :: rest) = some (s, rest) := by
  induction s with
  | nil =>
    show parseStringBody (34 :: rest) = some ([], rest)
    rw [parseStringBody.eq_def]
    norm_num
  | cons b s ih =>
    show parseStringBody ((escapeByte b ++ escapeBytes s) ++ 34 :: rest) = _
    rw [List.append_assoc]
    unfold escapeByte
    split_ifs with h1 h2 h3 h4 h5 h6 h7 h8
    · subst h1; rw [parseStringBody.eq_def]; simp [escCode, ih]
    · subst h2; rw [parseStringBody.eq_def]; simp [escCode, ih]
    · subst h3; rw [parseStringBody.eq_def]; simp [escCode, ih]
    · subst h4; rw [parseStringBody.eq_def]; simp [escCode, ih]
    · subst h5; rw [parseStringBody.eq_def]; simp [escCode, ih]
    · subst h6; rw [parseStringBody.eq_def]; simp [escCode, ih]
    · subst h7; rw [parseStringBody.eq_def]; simp [escCode, ih]
    · interval_cases b <;>
        first
          | omega
          | (rw [parseStringBody.eq_def]; simp [escCode, hexVal, hexDigit, hex4, utf8Bytes, ih])
    · have hb32 : ¬ b < 32 := h8
      rw [parseStringBody.eq_def]
      simp [h1, h2, hb32, ih]

theorem foldr_ofDigits (L : List Nat) :
    L.foldr (fun d a => 10 * a + d) 0 = Nat.ofDigits 10 L := by
  induction L with
  | nil => simp [Nat.ofDigits_nil]
  | cons d L ih =>
    simp only [List.foldr_cons, Nat.ofDigits_cons, Nat.cast_id, ih]
    ring

theorem digitsVal_digitChars (n : Nat) : digitsVal (digitChars n) = n := by
  unfold digitsVal digitChars
  rw [List.foldl_reverse, List.foldr_map]
  have he : (fun (d : ℕ) (a : ℕ) => 10 * a + (48 + d - 48)) = fun d a => 10 * a + d := by
    funext d a
    omega
  show (Nat.digits 10 n).foldr (fun d a => 10 * a + (48 + d - 48)) 0 = n
  rw [he, foldr_ofDigits, Nat.ofDigits_digits]

theorem digitChars_isDigit {n b : Nat} (hb : b ∈ digitChars n) : isDigit b = true := by
  unfold digitChars at hb
  rw [List.mem_reverse] at hb
  obtain ⟨d, hd, rfl⟩ := List.mem_map.mp hb
  have hlt : d < 10 := Nat.digits_lt_base (by norm_num) hd
  simp [isDigit]
  omega

theorem digitChars_head_ne_48 {n c : Nat} {cs : List Nat} (hn : n ≠ 0)
    (h : digitChars n = c :: cs) : c ≠ 48 := by
  have h1 : (digitChars n).head? = some c := by rw [h]; rfl
  unfold digitChars at h1
  rw [List.head?_reverse, List.getLast?_map] at h1
  have hne : Nat.digits 10 n ≠ [] := Nat.digits_ne_nil_iff_ne_zero.mpr hn
  rw [List.getLast?_eq_getLast _ hne] at h1
  have hlast : (Nat.digits 10 n).getLast hne ≠ 0 := Nat.getLast_digit_ne_zero 10 hn
  simp at h1
  omega

theorem skipWs_nws {b : Nat} (r : List Nat) (h : isWs b = false) :
    skipWs (b :: r) = b :: r := by
  rw [skipWs.eq_def]
  simp [h]

theorem takeDigits_ds (ds r : List Nat) (hds : ∀ b ∈ ds, isDigit b = true) :
    takeDigits (ds ++ 44 :: r) = (ds, 44 :: r) := by
  induction ds with
  | nil =>
    rw [List.nil_append, takeDigits.eq_def]
    norm_num [isDigit]
  | cons b ds ih =>
    have hb : isDigit b = true := hds b (List.mem_cons_self b ds)
    rw [List.cons_append, takeDigits.eq_def]
    simp only [hb, if_true]
    rw [ih (fun c hc => hds c (List.mem_cons_of_mem b hc))]

theorem printNat_cons (n : Nat) : ∃ c cs, printNat n = c :: cs ∧ isDigit c = true
    ∧ (n ≠ 0 → c ≠ 48) := by
  by_cases hn : n = 0
  · subst hn
    exact ⟨48, [], rfl, by decide, by simp⟩
  · have hne : Nat.digits 10 n ≠ [] := Nat.digits_ne_nil_iff_ne_zero.mpr hn
    have hlen : digitChars n ≠ [] := by
      unfold digitChars
      simp [hne]
    obtain ⟨c, cs, hcc⟩ : ∃ c cs, digitChars n = c :: cs := by
      cases h : digitChars n with
      | nil => exact absurd h hlen
      | cons c cs => exact ⟨c, cs, rfl⟩
    refine ⟨c, cs, by simp [printNat, hn, hcc], ?_, fun _ => digitChars_head_ne_48 hn hcc⟩
    exact digitChars_isDigit (hcc ▸ List.mem_cons_self c cs)

theorem skipWs_printNat (n : Nat) (r : List Nat) :
    skipWs (printNat n ++ r) = printNat n ++ r := by
  obtain ⟨c, cs, hp, hd, _⟩ := printNat_cons n
  rw [hp, List.cons_append]
  apply skipWs_nws
  simp [isDigit] at hd
  simp [isWs]
  omega

/-- Parsing the printed decimal of `n` followed by a comma recovers `n`. -/
theorem parseNumberU64_print (n : Nat) (r : List Nat) :
    parseNumberU64 (printNat n ++ 44 :: r) = some (n, 44 :: r) := by
  obtain ⟨c, cs, hp, hd, h48⟩ := printNat_cons n
  by_cases hn : n = 0
  · subst hn
    have : printNat 0 = [48] := rfl
    rw [this]
    simp [parseNumberU64, numTail, isDigit]
  · have hcs : ∀ b ∈ cs, isDigit b = true := by
      intro b hb
      apply digitChars_isDigit (n := n)
      have : digitChars n = c :: cs := by
        rw [show digitChars n = printNat n by simp [printNat, hn], hp]
      rw [this]
      exact List.mem_cons_of_mem c hb
    rw [hp, List.cons_append]
    rw [parseNumberU64.eq_def]
    simp only [h48 hn, if_false, hd, if_true]
    rw [takeDigits_ds cs r hcs]
    simp only [numTail]
    norm_num
    have hval : digitsVal (c :: cs) = n := by
      rw [show (c :: cs) = digitChars n by
        rw [show digitChars n = printNat n by simp [printNat, hn], hp]]
      exact digitsVal_digitChars n
    simp [hval]

/-- Parsing a string body made only of plain bytes (no quote, no backslash,
no control character) recovers it verbatim. -/
theorem parseStringBody_lit (name : List Nat) (rest : List Nat)
    (hname : ∀ b ∈ name, 32 ≤ b ∧ b ≠ 34 ∧ b ≠ 92) :
    parseStringBody (name ++ 34 :: rest) = some (name, rest) := by
  induction name with
  | nil =>
    rw [List.nil_append, parseStringBody.eq_def]
    norm_num
  | cons b nm ih =>
    obtain ⟨hb32, hb34, hb92⟩ := hname b (List.mem_cons_self b nm)
    have hb32n : ¬ b < 32 := by omega
    rw [List.cons_append, parseStringBody.eq_def]
    simp only [hb34, hb92, if_false, hb32n,
      ih (fun c hc => hname c (List.mem_cons_of_mem b hc))]
    simp

theorem skipWs_nil : skipWs [] = [] := rfl

theorem psb_tHandshake (rest : List Nat) :
    parseStringBody (72 :: 97 :: 110 :: 100 :: 115 :: 104 :: 97 :: 107 :: 101 :: 34 :: rest)
      = some ([72, 97, 110, 100, 115, 104, 97, 107, 101], rest) :=
  parseStringBody_lit [72, 97, 110, 100, 115, 104, 97, 107, 101] rest (by decide)

theorem psb_tChat (rest : List Nat) :
    parseStringBody (67 :: 104 :: 97 :: 116 :: 34 :: rest)
      = some ([67, 104, 97, 116], rest) :=
  parseStringBody_lit [67, 104, 97, 116] rest (by decide)

theorem psb_tAck (rest : List Nat) :
    parseStringBody (65 :: 99 :: 107 :: 34 :: rest) = some ([65, 99, 107], rest) :=
  parseStringBody_lit [65, 99, 107] rest (by decide)

theorem psb_tPing (rest : List Nat) :
    parseStringBody (80 :: 105 :: 110 :: 103 :: 34 :: rest)
      = some ([80, 105, 110, 103], rest) :=
  parseStringBody_lit [80, 105, 110, 103] rest (by decide)

theorem psb_fnPubkey (rest : List Nat) :
    parseStringBody (112 :: 117 :: 98 :: 107 :: 101 :: 121 :: 34 :: rest)
      = some ([112, 117, 98, 107, 101, 121], rest) :=
  parseStringBody_lit [112, 117, 98, 107, 101, 121] rest (by decide)

theorem psb_fnId (rest : List Nat) :
    parseStringBody (105 :: 100 :: 34 :: rest) = some ([105, 100], rest) :=
  parseStringBody_lit [105, 100] rest (by decide)

theorem psb_fnSenderId (rest : List Nat) :
    parseStringBody (115 :: 101 :: 110 :: 100 :: 101 :: 114 :: 95 :: 105 :: 100 :: 34 :: rest)
      = some ([115, 101, 110, 100, 101, 114, 95, 105, 100], rest) :=
  parseStringBody_lit [115, 101, 110, 100, 101, 114, 95, 105, 100] rest (by decide)

theorem psb_fnTimestamp (rest : List Nat) :
    parseStringBody (116 :: 105 :: 109 :: 101 :: 115 :: 116 :: 97 :: 109 :: 112 :: 34 :: rest)
      = some ([116, 105, 109, 101, 115, 116, 97, 109, 112], rest) :=
  parseStringBody_lit [116, 105, 109, 101, 115, 116, 97, 109, 112] rest (by decide)

theorem psb_fnPayload (rest : List Nat) :
    parseStringBody (112 :: 97 :: 121 :: 108 :: 111 :: 97 :: 100 :: 34 :: rest)
      = some ([112, 97, 121, 108, 111, 97, 100], rest) :=
  parseStringBody_lit [112, 97, 121, 108, 111, 97, 100] rest (by decide)

theorem psb_fnNonce (rest : List Nat) :
    parseStringBody (110 :: 111 :: 110 :: 99 :: 101 :: 34 :: rest)
      = some ([110, 111, 110, 99, 101], rest) :=
  parseStringBody_lit [110, 111, 110, 99, 101] rest (by decide)

/-- C8. For every `WireMessage` value, deserializing its serialized encoding
yields exactly the original message: all variants and all field values round
trip through the JSON wire format. -/
theorem decodeWire_encodeWire (m : WireMessage) : decodeWire (encodeWire m) = some m := by
  cases m with
  | Ping => rfl
  | Handshake pk =>
    rw [decodeWire.eq_def]
    simp [encodeWire, tHandshake, tChat, tAck, tPing, fnPubkey,
      encodeString, List.cons_append, List.nil_append, List.append_assoc,
      skipWs_nil, skipWs_nws, skipWs_printNat, isWs,
      psb_tHandshake, psb_fnPubkey, parseStringBody_escape,
      parseOneField, oneEntry, entryEnd, parseJsonString, closeOuter, Option.bind]
  | Ack i =>
    rw [decodeWire.eq_def]
    simp [encodeWire, tHandshake, tChat, tAck, tPing, fnId,
      encodeString, List.cons_append, List.nil_append, List.append_assoc,
      skipWs_nil, skipWs_nws, skipWs_printNat, isWs,
      psb_tAck, psb_fnId, parseStringBody_escape,
      parseOneField, oneEntry, entryEnd, parseJsonString, closeOuter, Option.bind]
  | Chat sid ts pl nc =>
    rw [decodeWire.eq_def]
    simp [encodeWire, tHandshake, tChat, tAck, tPing, fnSenderId, fnTimestamp,
      fnPayload, fnNonce, encodeString, List.cons_append, List.nil_append,
      List.append_assoc, skipWs_nil, skipWs_nws, skipWs_printNat, isWs,
      psb_tChat, psb_fnSenderId, psb_fnTimestamp, psb_fnPayload, psb_fnNonce,
      parseStringBody_escape, parseNumberU64_print,
      parseChatFields, chatEntry, entryEnd, parseJsonString, closeOuter, Option.bind]

/-! ## `peer-core/src/net.rs`: framing and the chat receive path

The byte stream of a connection is a finite `List Nat` (the bytes available
before the peer closes). `tokio`'s `read_exact` returns an
`ErrorKind::UnexpectedEof` error whenever the stream ends before the requested
count — whether zero or some of the requested bytes had arrived. -/

/-- `read_exact` on an in-memory stream: the requested bytes and the rest, or
`none` for the `UnexpectedEof` error. -/
def readExact (n : Nat) (s : List Nat) : Option (List Nat × List Nat) :=
  if s.length < n then none else some (s.take n, s.drop n)

/-- `u32::from_be_bytes`: big-endian integer value of 4 bytes. -/
def beNat (bs : List Nat) : Nat := bs.foldl (fun a b => 256 * a + b % 256) 0

/-- `read_msg_from_reader` from `net.rs`: read the 4-byte big-endian length
prefix — an `UnexpectedEof` there (stream closed with fewer than 4 bytes left)
is caught and returned as `Ok(None)`; read the advertised number of payload
bytes — an `UnexpectedEof` there propagates as an error (`?`); deserialize a
`WireMessage`; on `Chat`, base64-decode the payload and nonce (`?`) and call
`Session::decrypt`, whose panics propagate (the Rust code finally converts the
plaintext with `String::from_utf8_lossy`, a pure conversion kept at the byte
level here); `Ping` and every other non-`Chat` message yield `Ok(None)`. -/
def read_msg_from_reader (session : Session) (s : List Nat) :
    PanicOr (Except String (Option (List Nat))) :=
  match readExact 4 s with
  | none => .ok (.ok none)
  | some (lenb, rest) =>
    match readExact (beNat lenb) rest with
    | none => .ok (.error "unexpected eof")
    | some (buf, _) =>
      match decodeWire buf with
      | none => .ok (.error "json error")
      | some wm =>
        match wm with
        | .Chat _ _ payload nonce =>
          match base64decode payload with
          | .error e => .ok (.error e)
          | .ok data =>
            match base64decode nonce with
            | .error e => .ok (.error e)
            | .ok nonce_bytes =>
              match Session.decrypt session data nonce_bytes with
              | .panics msg => .panics msg
              | .ok pt => .ok (.ok (some pt))
        | .Ping => .ok (.ok none)
        | _ => .ok (.ok none)

/-- What the reader task of `chat_loop` does with one `read_msg_from_reader`
result: `Ok(Some(text))` prints the message and continues the loop;
`Ok(None)` prints `"Peer disconnected."` and breaks; `Err(e)` prints the
error and breaks. -/
inductive LoopAction where
  | continues
  | stops
deriving DecidableEq, Repr

/-- The reader-task match of `chat_loop` on one received result. -/
def readerStep : Except String (Option (List Nat)) → LoopAction
  | .ok (some _) => .continues
  | .ok none => .stops
  | .error _ => .stops

/-- The all-zero-key default session. -/
def zSession : Session := Session.new (List.replicate 32 0)

/-- C2 counterexample. A stream that delivers exactly one length byte and then
closes: the claim says this is a truncation error and never `Ok(None)`, but
`read_msg_from_reader` returns `Ok(None)` — `read_exact` reports the same
`UnexpectedEof` for a partial prefix as for an empty stream, and the code maps
it to a clean end-of-stream. -/
theorem read_msg_partial_length_returns_ok_none :
    read_msg_from_reader zSession [0] = .ok (.ok none) := rfl

/-- C2 (amended). If the stream ends before a full 4-byte length prefix —
with zero, one, two or three bytes delivered — `read_msg_from_reader` returns
`Ok(None)` (clean end-of-stream); if the full prefix arrives but the stream
ends before the advertised number of payload bytes, it returns an error,
never `Ok(None)`. -/
theorem read_msg_framing (session : Session) (s : List Nat) :
    (s.length < 4 → read_msg_from_reader session s = .ok (.ok none))
      ∧ (4 ≤ s.length → s.length - 4 < beNat (s.take 4) →
          read_msg_from_reader session s = .ok (.error "unexpected eof")) := by
  constructor
  · intro h
    simp [read_msg_from_reader, readExact, h]
  · intro h4 hlen
    have h4n : ¬ s.length < 4 := by omega
    simp [read_msg_from_reader, readExact, h4n, hlen]

/-- Witness for C2 at concrete inputs: a 1-byte stream yields `Ok(None)`; a
4-byte prefix advertising 5 payload bytes over an empty remainder errors. -/
theorem read_msg_framing_witness :
    read_msg_from_reader zSession [7] = .ok (.ok none)
      ∧ read_msg_from_reader zSession [0, 0, 0, 5] = .ok (.error "unexpected eof") :=
  ⟨(read_msg_framing zSession [7]).1 (by decide),
   (read_msg_framing zSession [0, 0, 0, 5]).2 (by decide) (by decide)⟩

/-- The exact frame a peer sends for `Ping`: 4-byte length prefix (6) and the
serialized `WireMessage::Ping`. -/
def pingFrame : List Nat := [0, 0, 0, 6] ++ encodeWire .Ping

/-- C3. On a received `Ping` frame, `read_msg_from_reader` returns `Ok(None)` —
the same value it uses for a closed stream — and the reader task of
`chat_loop` treats `Ok(None)` by printing `"Peer disconnected."` and breaking:
receiving a `Ping` terminates the receive loop instead of being a no-op. -/
theorem ping_frame_stops_receiver :
    decodeWire (encodeWire .Ping) = some .Ping
      ∧ read_msg_from_reader zSession pingFrame = .ok (.ok none)
      ∧ readerStep (.ok none) = .stops := by
  refine ⟨by decide, rfl, rfl⟩

/-! ## `peer-core/src/net.rs`: the listener half of `handle_conn` -/

/-- Whether a `WireMessage` is a `Handshake`. -/
def isHandshake : WireMessage → Bool
  | .Handshake _ => true
  | _ => false

/-- The outcome of the listener branch of `handle_conn` on its first decoded
frame. `chatEntered pk` stands for: the peer key decoded from base64, a
`Session` built via `Session::new (derive_shared_key ...)`, and `chat_loop`
entered; in the other two outcomes no `Session` is constructed and `chat_loop`
is never entered. -/
inductive ConnOutcome where
  | chatEntered (peerPub : List Nat)
  | abortedOk
  | failed (msg : String)
deriving DecidableEq, Repr

/-- The listener branch of `handle_conn` from `net.rs`, as a function of the
first received `WireMessage`: on `Handshake`, decode the peer key (`?`
propagates its error), reply, derive the session and enter `chat_loop`; on
anything else print `"expected handshake"` to stderr and fall through to
`Ok(())`. -/
def handle_conn_listener_first (incoming : WireMessage) : ConnOutcome :=
  match incoming with
  | .Handshake pubkey =>
    match pubkey_from_b64 pubkey with
    | .error e => .failed e
    | .ok peer_pub => .chatEntered peer_pub
  | _ => .abortedOk

/-- C4 counterexample. A `Ping` first frame makes the listener return
`Ok(())` after printing to stderr — the outcome is `abortedOk`, not a
protocol error (`failed`): the claim that the handler fails with an error is
false, although no session is created and chat is never entered. -/
theorem handle_conn_ping_aborts_ok :
    handle_conn_listener_first .Ping = .abortedOk := rfl

/-- C4 (amended). For every non-`Handshake` first frame, the listener prints
`"expected handshake"` and returns `Ok(())` without constructing a `Session`
and without entering `chat_loop` — the connection is dropped, but no error
value is produced. -/
theorem handle_conn_non_handshake (m : WireMessage) (h : isHandshake m = false) :
    handle_conn_listener_first m = .abortedOk := by
  cases m with
  | Handshake pk => simp [isHandshake] at h
  | Chat sid ts pl nc => rfl
  | Ack i => rfl
  | Ping => rfl

/-- Witness for C4 at a concrete input: an `Ack` first frame. -/
theorem handle_conn_non_handshake_witness :
    handle_conn_listener_first (.Ack [97]) = .abortedOk :=
  handle_conn_non_handshake (.Ack [97]) (by decide)

/-! ## `peer-common/src/crypto.rs`: the X25519 key exchange (C6)

`generate_keypair` / `derive_shared_key` delegate to the `x25519_dalek` crate:
an `EphemeralSecret` is 32 random bytes, read as a little-endian integer and
clamped; `PublicKey::from(&secret)` is the Montgomery x-coordinate of the
clamped scalar times the curve25519 base point; `diffie_hellman` is the
x-coordinate of the clamped scalar times the peer's point; the shared key is
the SHA-256 of those 32 bytes. The curve is embedded through Mathlib's
Weierstrass-curve group: curve25519, `y² = x³ + 486662·x² + x` over
`GF(2²⁵⁵ − 19)`, is the Weierstrass curve with `a₂ = 486662`, `a₄ = 1`. The
primality of `2²⁵⁵ − 19` is established below by a chain of Lucas
certificates, evaluated in the kernel through a binary `powMod`. -/

/-- Square-and-multiply core of `powMod`, structurally recursive on a fuel
bound for the binary length of the exponent. -/
def powModF (m : Nat) : Nat → Nat → Nat → Nat
  | 0, _, _ => 1 % m
  | fuel + 1, a, n =>
    if n = 0 then 1 % m
    else if n % 2 = 1 then a % m * powModF m fuel (a * a % m) (n / 2) % m
    else powModF m fuel (a * a % m) (n / 2)

/-- `a ^ n` modulo `m`, computable by kernel reduction in `O(log n)` steps. -/
def powMod (m a n : Nat) : Nat := powModF m n a n

theorem powModF_spec (m : Nat) : ∀ fuel a n, n < 2 ^ fuel →
    powModF m fuel a n = a ^ n % m := by
  intro fuel
  induction fuel with
  | zero =>
    intro a n hn
    have : n = 0 := by simpa using hn
    subst this
    simp [powModF]
  | succ fuel ih =>
    intro a n hn
    by_cases h0 : n = 0
    · subst h0
      simp [powModF]
    · have hhalf : n / 2 < 2 ^ fuel := by
        rw [pow_succ] at hn
        omega
      have hrec := ih (a * a % m) (n / 2) hhalf
      have hsq : (a * a % m) ^ (n / 2) % m = (a * a) ^ (n / 2) % m := by
        rw [← Nat.pow_mod]
      have hpow : (a * a) ^ (n / 2) = a ^ (2 * (n / 2)) := by
        rw [two_mul, pow_add, mul_pow]
      rcases Nat.even_or_odd n with he | ho
      · have hmod : n % 2 = 0 := Nat.even_iff.mp he
        have hn2 : 2 * (n / 2) = n := by omega
        rw [powModF, if_neg h0, hmod]
        norm_num
        rw [hrec, hsq, hpow, hn2]
      · have hmod : n % 2 = 1 := Nat.odd_iff.mp ho
        have hn2 : n = 2 * (n / 2) + 1 := by omega
        rw [powModF, if_neg h0, hmod]
        norm_num
        rw [hrec, hsq, hpow]
        have hfin : a * (a ^ (2 * (n / 2)) % m) % m
            = a ^ (2 * (n / 2)) * a % m := by
          rw [Nat.mul_mod_mod, Nat.mul_comm]
        rw [hfin, ← pow_succ, ← hn2]

theorem powMod_spec (m a n : Nat) : powMod m a n = a ^ n % m :=
  powModF_spec m n a n (Nat.lt_two_pow n)

theorem powMod_lt {m : Nat} (hm : 0 < m) (a n : Nat) : powMod m a n < m := by
  rw [powMod_spec]
  exact Nat.mod_lt _ hm

/-- Bridge from a kernel `powMod` computation to a power in `ZMod p`. -/
theorem zmod_pow_eq_one {p : Nat} (a n : Nat) (h : powMod p a n = 1 % p) :
    ((a : ℕ) : ZMod p) ^ n = 1 := by
  have h1 : ((a : ℕ) : ZMod p) ^ n = ((a ^ n % p : ℕ) : ZMod p) := by
    rw [ZMod.natCast_mod, Nat.cast_pow]
  rw [h1, ← powMod_spec, h, ZMod.natCast_mod, Nat.cast_one]

/-- Bridge for the inequalities of a Lucas certificate. -/
theorem zmod_pow_ne_one {p : Nat} (hp : 1 < p) (a n : Nat)
    (h : powMod p a n ≠ 1) : ((a : ℕ) : ZMod p) ^ n ≠ 1 := by
  intro hcon
  apply h
  have h1 : ((a : ℕ) : ZMod p) ^ n = ((a ^ n % p : ℕ) : ZMod p) := by
    rw [ZMod.natCast_mod, Nat.cast_pow]
  rw [h1, ← powMod_spec] at hcon
  have hlt : powMod p a n < p := powMod_lt (by omega) a n
  have : ((powMod p a n : ℕ) : ZMod p).val = ((1 : ℕ) : ZMod p).val := by
    rw [hcon, Nat.cast_one]
  rwa [ZMod.val_natCast_of_lt hlt, ZMod.val_natCast_of_lt hp] at this

/-! ## Lucas primality certificates for `2 ^ 255 - 19` -/

set_option maxRecDepth 100000 in
theorem prime_1923133 : Nat.Prime 1923133 := by
  apply lucas_primality 1923133 ((2 : ℕ) : ZMod 1923133)
  · exact zmod_pow_eq_one 2 _ (by decide)
  · intro q hq hdvd
    have hfact : 1923133 - 1 = 2 ^ 2 * (3 * (43 * (3727))) := by norm_num
    rw [hfact] at hdvd
    rcases (Nat.Prime.dvd_mul hq).mp hdvd with h | hrest0
    · have hdp : q ∣ 2 := Nat.Prime.dvd_of_dvd_pow hq h
      have hqe : q = 2 := (Nat.prime_dvd_prime_iff_eq hq (by norm_num : Nat.Prime 2)).mp hdp
      subst hqe
      exact zmod_pow_ne_one (by norm_num) 2 _ (by decide)
    rcases (Nat.Prime.dvd_mul hq).mp hrest0 with h | hrest1
    · have hqe : q = 3 := (Nat.prime_dvd_prime_iff_eq hq (by norm_num : Nat.Prime 3)).mp h
      subst hqe
      exact zmod_pow_ne_one (by norm_num) 2 _ (by decide)
    rcases (Nat.Prime.dvd_mul hq).mp hrest1 with h | hrest2
    · have hqe : q = 43 := (Nat.prime_dvd_prime_iff_eq hq (by norm_num : Nat.Prime 43)).mp h
      subst hqe
      exact zmod_pow_ne_one (by norm_num) 2 _ (by decide)
    have hqe : q = 3727 := (Nat.prime_dvd_prime_iff_eq hq (by norm_num : Nat.Prime 3727)).mp hrest2
    subst hqe
    exact zmod_pow_ne_one (by norm_num) 2 _ (by decide)

set_option maxRecDepth 100000 in
theorem prime_8574133 : Nat.Prime 8574133 := by
  apply lucas_primality 8574133 ((2 : ℕ) : ZMod 8574133)
  · exact zmod_pow_eq_one 2 _ (by decide)
  · intro q hq hdvd
    have hfact : 8574133 - 1 = 2 ^ 2 * (3 * (7 * (103 * (991)))) := by norm_num
    rw [hfact] at hdvd
    rcases (Nat.Prime.dvd_mul hq).mp hdvd with h | hrest0
    · have hdp : q ∣ 2 := Nat.Prime.dvd_of_dvd_pow hq h
      have hqe : q = 2 := (Nat.prime_dvd_prime_iff_eq hq (by norm_num : Nat.Prime 2)).mp hdp
      subst hqe
      exact zmod_pow_ne_one (by norm_num) 2 _ (by decide)
    rcases (Nat.Prime.dvd_mul hq).mp hrest0 with h | hrest1
    · have hqe : q = 3 := (Nat.prime_dvd_prime_iff_eq hq (by norm_num : Nat.Prime 3)).mp h
      subst hqe
      exact zmod_pow_ne_one (by norm_num) 2 _ (by decide)
    rcases (Nat.Prime.dvd_mul hq).mp hrest1 with h | hrest2
    · have hqe : q = 7 := (Nat.prime_dvd_prime_iff_eq hq (by norm_num : Nat.Prime 7)).mp h
      subst hqe
      exact zmod_pow_ne_one (by norm_num) 2 _ (by decide)
    rcases (Nat.Prime.dvd_mul hq).mp hrest2 with h | hrest3
    · have hqe : q = 103 := (Nat.prime_dvd_prime_iff_eq hq (by norm_num : Nat.Prime 103)).mp h
      subst hqe
      exact zmod_pow_ne_one (by norm_num) 2 _ (by decide)
    have hqe : q = 991 := (Nat.prime_dvd_prime_iff_eq hq (by norm_num : Nat.Prime 991)).mp hrest3
    subst hqe
    exact zmod_pow_ne_one (by norm_num) 2 _ (by decide)

set_option maxRecDepth 100000 in
theorem prime_2773320623 : Nat.Prime 2773320623 := by
  apply lucas_primality 2773320623 ((5 : ℕ) : ZMod 2773320623)
  · exact zmod_pow_eq_one 5 _ (by decide)
  · intro q hq hdvd
    have hfact : 2773320623 - 1 = 2 * (2437 * (569003)) := by norm_num
    rw [hfact] at hdvd
    rcases (Nat.Prime.dvd_mul hq).mp hdvd with h | hrest0
    · have hqe : q = 2 := (Nat.prime_dvd_prime_iff_eq hq (by norm_num : Nat.Prime 2)).mp h
      subst hqe
      exact zmod_pow_ne_one (by norm_num) 5 _ (by decide)
    rcases (Nat.Prime.dvd_mul hq).mp hrest0 with h | hrest1
    · have hqe : q = 2437 := (Nat.prime_dvd_prime_iff_eq hq (by norm_num : Nat.Prime 2437)).mp h
      subst hqe
      exact zmod_pow_ne_one (by norm_num) 5 _ (by decide)
    have hqe : q = 569003 := (Nat.prime_dvd_prime_iff_eq hq (by norm_num : Nat.Prime 569003)).mp hrest1
    subst hqe
    exact zmod_pow_ne_one (by norm_num) 5 _ (by decide)

set_option maxRecDepth 100000 in
theorem prime_72106336199 : Nat.Prime 72106336199 := by
  apply lucas_primality 72106336199 ((7 : ℕ) : ZMod 72106336199)
  · exact zmod_pow_eq_one 7 _ (by decide)
  · intro q hq hdvd
    have hfact : 72106336199 - 1 = 2 * (13 * (2773320623)) := by norm_num
    rw [hfact] at hdvd
    rcases (Nat.Prime.dvd_mul hq).mp hdvd with h | hrest0
    · have hqe : q = 2 := (Nat.prime_dvd_prime_iff_eq hq (by norm_num : Nat.Prime 2)).mp h
      subst hqe
      exact zmod_pow_ne_one (by norm_num) 7 _ (by decide)
    rcases (Nat.Prime.dvd_mul hq).mp hrest0 with h | hrest1
    · have hqe : q = 13 := (Nat.prime_dvd_prime_iff_eq hq (by norm_num : Nat.Prime 13)).mp h
      subst hqe
      exact zmod_pow_ne_one (by norm_num) 7 _ (by decide)
    have hqe : q = 2773320623 := (Nat.prime_dvd_prime_iff_eq hq prime_2773320623).mp hrest1
    subst hqe
    exact zmod_pow_ne_one (by norm_num) 7 _ (by decide)

set_option maxRecDepth 100000 in
theorem prime_1919519569386763 : Nat.Prime 1919519569386763 := by
  apply lucas_primality 1919519569386763 ((2 : ℕ) : ZMod 1919519569386763)
  · exact zmod_pow_eq_one 2 _ (by decide)
  · intro q hq hdvd
    have hfact : 1919519569386763 - 1 = 2 * (3 * (7 * (19 * (47 ^ 2 * (127 * (8574133)))))) := by norm_num
    rw [hfact] at hdvd
    rcases (Nat.Prime.dvd_mul hq).mp hdvd with h | hrest0
    · have hqe : q = 2 := (Nat.prime_dvd_prime_iff_eq hq (by norm_num : Nat.Prime 2)).mp h
      subst hqe
      exact zmod_pow_ne_one (by norm_num) 2 _ (by decide)
    rcases (Nat.Prime.dvd_mul hq).mp hrest0 with h | hrest1
    · have hqe : q = 3 := (Nat.prime_dvd_prime_iff_eq hq (by norm_num : Nat.Prime 3)).mp h
      subst hqe
      exact zmod_pow_ne_one (by norm_num) 2 _ (by decide)
    rcases (Nat.Prime.dvd_mul hq).mp hrest1 with h | hrest2
    · have hqe : q = 7 := (Nat.prime_dvd_prime_iff_eq hq (by norm_num : Nat.Prime 7)).mp h
      subst hqe
      exact zmod_pow_ne_one (by norm_num) 2 _ (by decide)
    rcases (Nat.Prime.dvd_mul hq).mp hrest2 with h | hrest3
    · have hqe : q = 19 := (Nat.prime_dvd_prime_iff_eq hq (by norm_num : Nat.Prime 19)).mp h
      subst hqe
      exact zmod_pow_ne_one (by norm_num) 2 _ (by decide)
    rcases (Nat.Prime.dvd_mul hq).mp hrest3 with h | hrest4
    · have hdp : q ∣ 47 := Nat.Prime.dvd_of_dvd_pow hq h
      have hqe : q = 47 := (Nat.prime_dvd_prime_iff_eq hq (by norm_num : Nat.Prime 47)).mp hdp
      subst hqe
      exact zmod_pow_ne_one (by norm_num) 2 _ (by decide)
    rcases (Nat.Prime.dvd_mul hq).mp hrest4 with h | hrest5
    · have hqe : q = 127 := (Nat.prime_dvd_prime_iff_eq hq (by norm_num : Nat.Prime 127)).mp h
      subst hqe
      exact zmod_pow_ne_one (by norm_num) 2 _ (by decide)
    have hqe : q = 8574133 := (Nat.prime_dvd_prime_iff_eq hq prime_8574133).mp hrest5
    subst hqe
    exact zmod_pow_ne_one (by norm_num) 2 _ (by decide)

set_option maxRecDepth 100000 in
theorem prime_31757755568855353 : Nat.Prime 31757755568855353 := by
  apply lucas_primality 31757755568855353 ((10 : ℕ) : ZMod 31757755568855353)
  · exact zmod_pow_eq_one 10 _ (by decide)
  · intro q hq hdvd
    have hfact : 31757755568855353 - 1 = 2 ^ 3 * (3 * (31 * (107 * (223 * (4153 * (430751)))))) := by norm_num
    rw [hfact] at hdvd
    rcases (Nat.Prime.dvd_mul hq).mp hdvd with h | hrest0
    · have hdp : q ∣ 2 := Nat.Prime.dvd_of_dvd_pow hq h
      have hqe : q = 2 := (Nat.prime_dvd_prime_iff_eq hq (by norm_num : Nat.Prime 2)).mp hdp
      subst hqe
      exact zmod_pow_ne_one (by norm_num) 10 _ (by decide)
    rcases (Nat.Prime.dvd_mul hq).mp hrest0 with h | hrest1
    · have hqe : q = 3 := (Nat.prime_dvd_prime_iff_eq hq (by norm_num : Nat.Prime 3)).mp h
      subst hqe
      exact zmod_pow_ne_one (by norm_num) 10 _ (by decide)
    rcases (Nat.Prime.dvd_mul hq).mp hrest1 with h | hrest2
    · have hqe : q = 31 := (Nat.prime_dvd_prime_iff_eq hq (by norm_num : Nat.Prime 31)).mp h
      subst hqe
      exact zmod_pow_ne_one (by norm_num) 10 _ (by decide)
    rcases (Nat.Prime.dvd_mul hq).mp hrest2 with h | hrest3
    · have hqe : q = 107 := (Nat.prime_dvd_prime_iff_eq hq (by norm_num : Nat.Prime 107)).mp h
      subst hqe
      exact zmod_pow_ne_one (by norm_num) 10 _ (by decide)
    rcases (Nat.Prime.dvd_mul hq).mp hrest3 with h | hrest4
    · have hqe : q = 223 := (Nat.prime_dvd_prime_iff_eq hq (by norm_num : Nat.Prime 223)).mp h
      subst hqe
      exact zmod_pow_ne_one (by norm_num) 10 _ (by decide)
    rcases (Nat.Prime.dvd_mul hq).mp hrest4 with h | hrest5
    · have hqe : q = 4153 := (Nat.prime_dvd_prime_iff_eq hq (by norm_num : Nat.Prime 4153)).mp h
      subst hqe
      exact zmod_pow_ne_one (by norm_num) 10 _ (by decide)
    have hqe : q = 430751 := (Nat.prime_dvd_prime_iff_eq hq (by norm_num : Nat.Prime 430751)).mp hrest5
    subst hqe
    exact zmod_pow_ne_one (by norm_num) 10 _ (by decide)

set_option maxRecDepth 100000 in
theorem prime_75445702479781427272750846543864801 : Nat.Prime 75445702479781427272750846543864801 := by
  apply lucas_primality 75445702479781427272750846543864801 ((7 : ℕ) : ZMod 75445702479781427272750846543864801)
  · exact zmod_pow_eq_one 7 _ (by decide)
  · intro q hq hdvd
    have hfact : 75445702479781427272750846543864801 - 1 = 2 ^ 5 * (3 ^ 2 * (5 ^ 2 * (75707 * (72106336199 * (1919519569386763))))) := by norm_num
    rw [hfact] at hdvd
    rcases (Nat.Prime.dvd_mul hq).mp hdvd with h | hrest0
    · have hdp : q ∣ 2 := Nat.Prime.dvd_of_dvd_pow hq h
      have hqe : q = 2 := (Nat.prime_dvd_prime_iff_eq hq (by norm_num : Nat.Prime 2)).mp hdp
      subst hqe
      exact zmod_pow_ne_one (by norm_num) 7 _ (by decide)
    rcases (Nat.Prime.dvd_mul hq).mp hrest0 with h | hrest1
    · have hdp : q ∣ 3 := Nat.Prime.dvd_of_dvd_pow hq h
      have hqe : q = 3 := (Nat.prime_dvd_prime_iff_eq hq (by norm_num : Nat.Prime 3)).mp hdp
      subst hqe
      exact zmod_pow_ne_one (by norm_num) 7 _ (by decide)
    rcases (Nat.Prime.dvd_mul hq).mp hrest1 with h | hrest2
    · have hdp : q ∣ 5 := Nat.Prime.dvd_of_dvd_pow hq h
      have hqe : q = 5 := (Nat.prime_dvd_prime_iff_eq hq (by norm_num : Nat.Prime 5)).mp hdp
      subst hqe
      exact zmod_pow_ne_one (by norm_num) 7 _ (by decide)
    rcases (Nat.Prime.dvd_mul hq).mp hrest2 with h | hrest3
    · have hqe : q = 75707 := (Nat.prime_dvd_prime_iff_eq hq (by norm_num : Nat.Prime 75707)).mp h
      subst hqe
      exact zmod_pow_ne_one (by norm_num) 7 _ (by decide)
    rcases (Nat.Prime.dvd_mul hq).mp hrest3 with h | hrest4
    · have hqe : q = 72106336199 := (Nat.prime_dvd_prime_iff_eq hq prime_72106336199).mp h
      subst hqe
      exact zmod_pow_ne_one (by norm_num) 7 _ (by decide)
    have hqe : q = 1919519569386763 := (Nat.prime_dvd_prime_iff_eq hq prime_1919519569386763).mp hrest4
    subst hqe
    exact zmod_pow_ne_one (by norm_num) 7 _ (by decide)

set_option maxRecDepth 100000 in
theorem prime_74058212732561358302231226437062788676166966415465897661863160754340907 : Nat.Prime 74058212732561358302231226437062788676166966415465897661863160754340907 := by
  apply lucas_primality 74058212732561358302231226437062788676166966415465897661863160754340907 ((2 : ℕ) : ZMod 74058212732561358302231226437062788676166966415465897661863160754340907)
  · exact zmod_pow_eq_one 2 _ (by decide)
  · intro q hq hdvd
    have hfact : 74058212732561358302231226437062788676166966415465897661863160754340907 - 1 = 2 * (3 * (353 * (57467 * (132049 * (1923133 * (31757755568855353 * (75445702479781427272750846543864801))))))) := by norm_num
    rw [hfact] at hdvd
    rcases (Nat.Prime.dvd_mul hq).mp hdvd with h | hrest0
    · have hqe : q = 2 := (Nat.prime_dvd_prime_iff_eq hq (by norm_num : Nat.Prime 2)).mp h
      subst hqe
      exact zmod_pow_ne_one (by norm_num) 2 _ (by decide)
    rcases (Nat.Prime.dvd_mul hq).mp hrest0 with h | hrest1
    · have hqe : q = 3 := (Nat.prime_dvd_prime_iff_eq hq (by norm_num : Nat.Prime 3)).mp h
      subst hqe
      exact zmod_pow_ne_one (by norm_num) 2 _ (by decide)
    rcases (Nat.Prime.dvd_mul hq).mp hrest1 with h | hrest2
    · have hqe : q = 353 := (Nat.prime_dvd_prime_iff_eq hq (by norm_num : Nat.Prime 353)).mp h
      subst hqe
      exact zmod_pow_ne_one (by norm_num) 2 _ (by decide)
    rcases (Nat.Prime.dvd_mul hq).mp hrest2 with h | hrest3
    · have hqe : q = 57467 := (Nat.prime_dvd_prime_iff_eq hq (by norm_num : Nat.Prime 57467)).mp h
      subst hqe
      exact zmod_pow_ne_one (by norm_num) 2 _ (by decide)
    rcases (Nat.Prime.dvd_mul hq).mp hrest3 with h | hrest4
    · have hqe : q = 132049 := (Nat.prime_dvd_prime_iff_eq hq (by norm_num : Nat.Prime 132049)).mp h
      subst hqe
      exact zmod_pow_ne_one (by norm_num) 2 _ (by decide)
    rcases (Nat.Prime.dvd_mul hq).mp hrest4 with h | hrest5
    · have hqe : q = 1923133 := (Nat.prime_dvd_prime_iff_eq hq prime_1923133).mp h
      subst hqe
      exact zmod_pow_ne_one (by norm_num) 2 _ (by decide)
    rcases (Nat.Prime.dvd_mul hq).mp hrest5 with h | hrest6
    · have hqe : q = 31757755568855353 := (Nat.prime_dvd_prime_iff_eq hq prime_31757755568855353).mp h
      subst hqe
      exact zmod_pow_ne_one (by norm_num) 2 _ (by decide)
    have hqe : q = 75445702479781427272750846543864801 := (Nat.prime_dvd_prime_iff_eq hq prime_75445702479781427272750846543864801).mp hrest6
    subst hqe
    exact zmod_pow_ne_one (by norm_num) 2 _ (by decide)

set_option maxRecDepth 100000 in
theorem prime_57896044618658097711785492504343953926634992332820282019728792003956564819949 : Nat.Prime 57896044618658097711785492504343953926634992332820282019728792003956564819949 := by
  apply lucas_primality 57896044618658097711785492504343953926634992332820282019728792003956564819949 ((2 : ℕ) : ZMod 57896044618658097711785492504343953926634992332820282019728792003956564819949)
  · exact zmod_pow_eq_one 2 _ (by decide)
  · intro q hq hdvd
    have hfact : 57896044618658097711785492504343953926634992332820282019728792003956564819949 - 1 = 2 ^ 2 * (3 * (65147 * (74058212732561358302231226437062788676166966415465897661863160754340907))) := by norm_num
    rw [hfact] at hdvd
    rcases (Nat.Prime.dvd_mul hq).mp hdvd with h | hrest0
    · have hdp : q ∣ 2 := Nat.Prime.dvd_of_dvd_pow hq h
      have hqe : q = 2 := (Nat.prime_dvd_prime_iff_eq hq (by norm_num : Nat.Prime 2)).mp hdp
      subst hqe
      exact zmod_pow_ne_one (by norm_num) 2 _ (by decide)
    rcases (Nat.Prime.dvd_mul hq).mp hrest0 with h | hrest1
    · have hqe : q = 3 := (Nat.prime_dvd_prime_iff_eq hq (by norm_num : Nat.Prime 3)).mp h
      subst hqe
      exact zmod_pow_ne_one (by norm_num) 2 _ (by decide)
    rcases (Nat.Prime.dvd_mul hq).mp hrest1 with h | hrest2
    · have hqe : q = 65147 := (Nat.prime_dvd_prime_iff_eq hq (by norm_num : Nat.Prime 65147)).mp h
      subst hqe
      exact zmod_pow_ne_one (by norm_num) 2 _ (by decide)
    have hqe : q = 74058212732561358302231226437062788676166966415465897661863160754340907 := (Nat.prime_dvd_prime_iff_eq hq prime_74058212732561358302231226437062788676166966415465897661863160754340907).mp hrest2
    subst hqe
    exact zmod_pow_ne_one (by norm_num) 2 _ (by decide)

/-! ## SHA-256 (the `sha2` crate), used by `derive_shared_key` -/

/-- 32-bit right rotation. -/
def rotr32 (x n : Nat) : Nat := (w32 x / 2 ^ n) ||| (w32 x % 2 ^ n * 2 ^ (32 - n))

/-- The 64 SHA-256 round constants. -/
def sha256K : List Nat :=
  [1116352408, 1899447441, 3049323471, 3921009573, 961987163, 1508970993,
   2453635748, 2870763221, 3624381080, 310598401, 607225278, 1426881987,
   1925078388, 2162078206, 2614888103, 3248222580, 3835390401, 4022224774,
   264347078, 604807628, 770255983, 1249150122, 1555081692, 1996064986,
   2554220882, 2821834349, 2952996808, 3210313671, 3336571891, 3584528711,
   113926993, 338241895, 666307205, 773529912, 1294757372, 1396182291,
   1695183700, 1986661051, 2177026350, 2456956037, 2730485921, 2820302411,
   3259730800, 3345764771, 3516065817, 3600352804, 4094571909, 275423344,
   430227734, 506948616, 659060556, 883997877, 958139571, 1322822218,
   1537002063, 1747873779, 1955562222, 2024104815, 2227730452, 2361852424,
   2428436474, 2756734187, 3204031479, 3329325298]

/-- The SHA-256 initial hash state. -/
def sha256H0 : List Nat :=
  [1779033703, 3144134277, 1013904242, 2773480762, 1359893119, 2600822924,
   528734635, 1541459225]

/-- Big-endian 32-bit words from bytes. -/
def bytesToWordsBE : List Nat → List Nat
  | b0 :: b1 :: b2 :: b3 :: rest =>
    (16777216 * (b0 % 256) + 65536 * (b1 % 256) + 256 * (b2 % 256) + b3 % 256)
      :: bytesToWordsBE rest
  | _ => []

/-- Big-endian bytes of a list of 32-bit words. -/
def wordsToBytesBE : List Nat → List Nat
  | [] => []
  | w :: rest =>
    w / 16777216 % 256 :: w / 65536 % 256 :: w / 256 % 256 :: w % 256
      :: wordsToBytesBE rest

/-- Big-endian bytes of a value, `n` bytes wide. -/
def beBytes : Nat → Nat → List Nat
  | 0, _ => []
  | n + 1, v => beBytes n (v / 256) ++ [v % 256]

/-- SHA-256 message-schedule sigma functions. -/
def ssig0 (w : Nat) : Nat := rotr32 w 7 ^^^ rotr32 w 18 ^^^ w32 w / 2 ^ 3

/-- SHA-256 message-schedule sigma functions. -/
def ssig1 (w : Nat) : Nat := rotr32 w 17 ^^^ rotr32 w 19 ^^^ w32 w / 2 ^ 10

/-- SHA-256 compression sigma functions. -/
def bsig0 (a : Nat) : Nat := rotr32 a 2 ^^^ rotr32 a 13 ^^^ rotr32 a 22

/-- SHA-256 compression sigma functions. -/
def bsig1 (e : Nat) : Nat := rotr32 e 6 ^^^ rotr32 e 11 ^^^ rotr32 e 25

/-- SHA-256 choice function. -/
def chW (e f g : Nat) : Nat := (e &&& f) ^^^ ((e ^^^ 4294967295) &&& g)

/-- SHA-256 majority function. -/
def majW (a b c : Nat) : Nat := (a &&& b) ^^^ (a &&& c) ^^^ (b &&& c)

/-- Extend a message schedule by `n` further words. -/
def extendW (acc : List Nat) : Nat → List Nat
  | 0 => acc
  | n + 1 =>
    let L := acc.length
    extendW (acc ++ [w32 (ssig1 (gw acc (L - 2)) + gw acc (L - 7)
      + ssig0 (gw acc (L - 15)) + gw acc (L - 16))]) n

/-- One SHA-256 round on the 8-word working state. -/
def sha256Round (st : List Nat) (kw : Nat × Nat) : List Nat :=
  let a := gw st 0
  let b := gw st 1
  let c := gw st 2
  let d := gw st 3
  let e := gw st 4
  let f := gw st 5
  let g := gw st 6
  let h := gw st 7
  let t1 := w32 (h + bsig1 e + chW e f g + kw.1 + kw.2)
  let t2 := w32 (bsig0 a + majW a b c)
  [w32 (t1 + t2), a, b, c, w32 (d + t1), e, f, g]

/-- SHA-256 compression of one 64-byte block into the hash state. -/
def sha256Block (h : List Nat) (block : List Nat) : List Nat :=
  let ws := extendW (bytesToWordsBE (block.take 64)) 48
  let fin := (List.zip sha256K ws).foldl sha256Round h
  List.zipWith add32 h fin

/-- SHA-256 padding: `0x80`, zeros, 64-bit big-endian bit length. -/
def sha256Pad (msg : List Nat) : List Nat :=
  msg ++ [128] ++ List.replicate ((64 - (msg.length + 9) % 64) % 64) 0
    ++ beBytes 8 (8 * msg.length)

/-- Iterate the compression over 64-byte blocks (fuel-bounded). -/
def sha256Go (h : List Nat) : Nat → List Nat → List Nat
  | 0, _ => h
  | fuel + 1, data =>
    match data with
    | [] => h
    | _ => sha256Go (sha256Block h (data.take 64)) fuel (data.drop 64)

/-- `Sha256::digest`: the 32-byte SHA-256 hash of a byte string. -/
def sha256 (msg : List Nat) : List Nat :=
  wordsToBytesBE (sha256Go sha256H0 (sha256Pad msg).length (sha256Pad msg))

/-! ## Curve25519 and the Diffie–Hellman key exchange -/

/-- The field size of curve25519: `2 ^ 255 - 19`. -/
def p25519 : Nat :=
  57896044618658097711785492504343953926634992332820282019728792003956564819949

instance : Fact (Nat.Prime p25519) :=
  ⟨prime_57896044618658097711785492504343953926634992332820282019728792003956564819949⟩

/-- Curve25519, `y² = x³ + 486662 x² + x`, as a Weierstrass curve (its
Montgomery form has `B = 1`, so the coefficients carry over directly). -/
def Curve25519 : WeierstrassCurve.Affine (ZMod p25519) :=
  { a₁ := 0, a₂ := 486662, a₃ := 0, a₄ := 1, a₆ := 0 }

/-- The y-coordinate of the standard base point (x = 9). -/
def gY : ZMod p25519 :=
  14781619447589544791020593568409986887264606134616475288964881837755586237401

theorem curve25519_equation_g : Curve25519.Equation 9 gY := by
  rw [WeierstrassCurve.Affine.equation_iff]
  show gY ^ 2 + 0 * 9 * gY + 0 * gY = 9 ^ 3 + 486662 * 9 ^ 2 + 1 * 9 + 0
  decide

theorem curve25519_delta_ne_zero : Curve25519.Δ ≠ 0 := by
  rw [show Curve25519.Δ = 3789438435840 from by decide]
  decide

theorem curve25519_nonsingular_g : Curve25519.Nonsingular 9 gY :=
  WeierstrassCurve.Affine.nonsingular_of_Δ_ne_zero Curve25519 curve25519_equation_g
    curve25519_delta_ne_zero

/-- The X25519 base point, `x = 9`. -/
def basePointG : Curve25519.Point := .some curve25519_nonsingular_g

/-- The X25519 scalar clamp: clear bits 0–2 and 255, set bit 254, of the
32-byte little-endian secret (`x25519_dalek` clamps the secret on creation). -/
def clamp (n : Nat) : Nat := 2 ^ 254 + 8 * (n % 2 ^ 254 / 8)

/-- The 32-byte `MontgomeryPoint` encoding of a curve point: the little-endian
x-coordinate (the identity encodes as zero, as the ladder outputs). -/
noncomputable def xBytesOf : Curve25519.Point → List Nat
  | .zero => List.replicate 32 0
  | @WeierstrassCurve.Affine.Point.some _ _ _ x _ _ => leBytes 32 x.val

/-- `PublicKey::from(&secret)` for `generate_keypair`: the clamped secret
scalar times the base point. The 32 random bytes of the `EphemeralSecret` are
the little-endian integer `secret`. -/
noncomputable def publicKeyOf (secret : Nat) : Curve25519.Point :=
  clamp secret • basePointG

/-- `derive_shared_key` from `crypto.rs`: `secret.diffie_hellman(&peer_pub)`
computes the x-coordinate of the clamped secret times the peer's point
(the Montgomery ladder), and the result is hashed with SHA-256. -/
noncomputable def derive_shared_key (secret : Nat) (peerPub : Curve25519.Point) :
    List Nat :=
  sha256 (xBytesOf (clamp secret • peerPub))

/-- C6. Diffie–Hellman symmetry: for every pair of keypairs produced by
`generate_keypair` (arbitrary 32-byte secrets `a` and `b`),
`derive_shared_key(a, B.public)` and `derive_shared_key(b, A.public)` are the
same 32-byte session key — scalar multiplication on the curve25519 group
commutes. -/
theorem derive_shared_key_symm (a b : Nat) :
    derive_shared_key a (publicKeyOf b) = derive_shared_key b (publicKeyOf a) := by
  unfold derive_shared_key publicKeyOf
  have h : clamp a • (clamp b • basePointG) = clamp b • (clamp a • basePointG) := by
    rw [smul_smul, smul_smul, Nat.mul_comm]
  rw [h]
